import Mathlib

/-!
# Verification of the robet_ai order-book trading core

A shallow embedding of the trading engine of the `robet_ai` repository:
order admission (`routes/order.ts`, latest revision), the matching engine and
trade executor (`services/matchingEngine.ts`, latest revision with locked
token / split collateral accounting), market settlement
(`services/settlementService.ts`), and the signature-verification middleware
(`middleware/verifySignature.ts`).

Modelling conventions:
* JavaScript numbers that carry money, prices and share quantities become `ℚ`
  (the code performs exact comparisons and additions on them; none of the
  verified claims depends on floating-point rounding).
* MongoDB collections become lists; `findOne`/`find` with a sort become
  explicit filters and fold-based selection; `save` becomes replacement of the
  first record with the same key.
* `uuid` order/trade identifiers are supplied by the caller (admission) or
  derived from the trade count (execution); no claim depends on their values.
* The cryptographic primitives used by the signature middleware (tweetnacl,
  secp256k1) are abstracted as boolean-valued parameters; the middleware's
  control flow around them is embedded faithfully.
* Descriptive fields that no verified claim touches (market question, creator,
  resolution date, trade timestamps) are omitted.
-/

namespace Robet

-- Rational arithmetic must evaluate on the concrete stores below;
-- `Rat.add/sub/mul/inv` ship `@[irreducible]` which blocks that.
attribute [local semireducible] Rat.add Rat.sub Rat.mul Rat.inv

/-- JavaScript `String.prototype.toLowerCase()`, structurally recursive so
that concrete evaluation reduces (behaviourally `String.toLower`). -/
def jsToLower (s : String) : String := String.mk (s.data.map Char.toLower)

/-- Order side, as in `models/Order.ts`. -/
inductive Side where
  | BUY
  | SELL
deriving DecidableEq, Repr

/-- Outcome-token type, as in `models/Order.ts`. -/
inductive TokenType where
  | YES
  | NO
deriving DecidableEq, Repr

/-- Order status, as in `models/Order.ts`. -/
inductive OrderStatus where
  | OPEN
  | PARTIAL
  | FILLED
  | CANCELLED
deriving DecidableEq, Repr

/-- Per-market position record of a user, as in `models/UserBalance.ts`
(latest schema: six numeric fields, the "locked token" revision). -/
structure MarketBalance where
  marketId : String
  yesTokens : ℚ
  noTokens : ℚ
  lockedYesTokens : ℚ
  lockedNoTokens : ℚ
  lockedCollateralYes : ℚ
  lockedCollateralNo : ℚ
deriving DecidableEq, Repr

/-- The all-zero position record that the code pushes on first reference of a
market (`{ marketId, yesTokens: 0, noTokens: 0, ... }`). -/
def MarketBalance.empty (marketId : String) : MarketBalance :=
  { marketId := marketId, yesTokens := 0, noTokens := 0,
    lockedYesTokens := 0, lockedNoTokens := 0,
    lockedCollateralYes := 0, lockedCollateralNo := 0 }

/-- A user's balance document, as in `models/UserBalance.ts`. -/
structure UserBalance where
  userId : String
  availableUSD : ℚ
  markets : List MarketBalance
deriving DecidableEq, Repr

/-- An order document, as in `models/Order.ts` (`createdAt` is the creation
timestamp used for time priority). -/
structure Order where
  orderId : String
  marketId : String
  userId : String
  side : Side
  tokenType : TokenType
  price : ℚ
  quantity : ℚ
  filledQuantity : ℚ
  status : OrderStatus
  createdAt : ℕ
deriving DecidableEq, Repr

/-- A trade document, as in `models/Trade.ts`. -/
structure Trade where
  tradeId : String
  marketId : String
  buyOrderId : String
  sellOrderId : String
  price : ℚ
  quantity : ℚ
  tokenType : TokenType
deriving DecidableEq, Repr

/-- A market document, as in `models/Market.ts` (fields the engine reads). -/
structure Market where
  marketId : String
  settled : Bool
  outcome : Option TokenType
deriving DecidableEq, Repr

/-- The persistent store: the four MongoDB collections. -/
structure DB where
  users : List UserBalance
  orders : List Order
  trades : List Trade
  markets : List Market
deriving DecidableEq, Repr

/-! ## Store primitives -/

/-- `UserBalance.findOne({ userId })`. -/
def getUser (db : DB) (uid : String) : Option UserBalance :=
  db.users.find? (fun u => u.userId == uid)

/-- `userBalance.save()`: replace the first document with the same `userId`
(append if absent, which never happens on the verified paths). -/
def putUser : List UserBalance → UserBalance → List UserBalance
  | [], u => [u]
  | v :: rest, u =>
      if v.userId == u.userId then u :: rest else v :: putUser rest u

/-- `order.save()`: replace the first document with the same `orderId`. -/
def putOrder : List Order → Order → List Order
  | [], o => [o]
  | v :: rest, o =>
      if v.orderId == o.orderId then o :: rest else v :: putOrder rest o

/-- `order.save()` lifted to the store. -/
def saveOrder (db : DB) (o : Order) : DB :=
  { db with orders := putOrder db.orders o }

/-- `userBalance.markets.find(m => m.marketId === marketId)`. -/
def findMB (u : UserBalance) (marketId : String) : Option MarketBalance :=
  u.markets.find? (fun m => m.marketId == marketId)

/-- The position record the code reads after find-or-create. -/
def entryFor (u : UserBalance) (marketId : String) : MarketBalance :=
  (findMB u marketId).getD (MarketBalance.empty marketId)

/-- Push a fresh all-zero record when the user has none for this market
(the find-or-create prologue of admission and execution). -/
def ensureMB (u : UserBalance) (marketId : String) : UserBalance :=
  match findMB u marketId with
  | some _ => u
  | none => { u with markets := u.markets ++ [MarketBalance.empty marketId] }

/-- In-place mutation of the first position record matching `marketId`
(`marketBalance.xyz = ...` through the reference obtained by `find`). -/
def updMB : List MarketBalance → String → (MarketBalance → MarketBalance) →
    List MarketBalance
  | [], _, _ => []
  | m :: rest, marketId, f =>
      if m.marketId == marketId then f m :: rest
      else m :: updMB rest marketId f

/-- `updMB` lifted to a user document. -/
def withMB (u : UserBalance) (marketId : String)
    (f : MarketBalance → MarketBalance) : UserBalance :=
  { u with markets := updMB u.markets marketId f }

/-! ## Order admission (`routes/order.ts`, `POST /api/order`, latest revision)

The route handler: validation, fund/token/collateral locking, order creation.
(The call into the matching engine that follows admission is `matchOrders`
below; `placeOrder` composes the two.) -/

/-- Error surface of admission, named as in the specification's taxonomy;
each constructor corresponds to one early-return of the route handler. -/
inductive OrderError where
  | invalidPrice
  | invalidQuantity
  | userNotFound
  | insufficientFunds
deriving DecidableEq, Repr

/-- A submitted order request: body fields plus the generated `orderId`
(`uuidv4()`) and the creation timestamp assigned by the store. -/
structure OrderReq where
  orderId : String
  marketId : String
  userId : String
  side : Side
  tokenType : TokenType
  price : ℚ
  quantity : ℚ
  createdAt : ℕ
deriving DecidableEq, Repr

/-- The fund-locking block of the route handler (between the balance load and
`userBalance.save()`); errors are the early 400-returns, on which nothing is
persisted. -/
def lockAssets (ub : UserBalance) (req : OrderReq) :
    Except OrderError UserBalance :=
  match req.side with
  | Side.BUY =>
      let requiredFunds := req.price * req.quantity
      if ub.availableUSD < requiredFunds then
        Except.error OrderError.insufficientFunds
      else
        Except.ok { ub with availableUSD := ub.availableUSD - requiredFunds }
  | Side.SELL =>
      match req.tokenType with
      | TokenType.YES =>
          let ownedYes := (entryFor ub req.marketId).yesTokens
          if req.quantity ≤ ownedYes then
            Except.ok (withMB ub req.marketId (fun m =>
              { m with yesTokens := m.yesTokens - req.quantity,
                       lockedYesTokens := m.lockedYesTokens + req.quantity }))
          else
            let shortAmount := req.quantity - ownedYes
            if ub.availableUSD < shortAmount then
              Except.error OrderError.insufficientFunds
            else
              let ub :=
                if 0 < ownedYes then
                  withMB ub req.marketId (fun m =>
                    { m with yesTokens := m.yesTokens - ownedYes,
                             lockedYesTokens := m.lockedYesTokens + ownedYes })
                else ub
              Except.ok (withMB
                { ub with availableUSD := ub.availableUSD - shortAmount }
                req.marketId (fun m =>
                  { m with lockedCollateralYes :=
                      m.lockedCollateralYes + shortAmount }))
      | TokenType.NO =>
          let ownedNo := (entryFor ub req.marketId).noTokens
          if req.quantity ≤ ownedNo then
            Except.ok (withMB ub req.marketId (fun m =>
              { m with noTokens := m.noTokens - req.quantity,
                       lockedNoTokens := m.lockedNoTokens + req.quantity }))
          else
            let shortAmount := req.quantity - ownedNo
            if ub.availableUSD < shortAmount then
              Except.error OrderError.insufficientFunds
            else
              let ub :=
                if 0 < ownedNo then
                  withMB ub req.marketId (fun m =>
                    { m with noTokens := m.noTokens - ownedNo,
                             lockedNoTokens := m.lockedNoTokens + ownedNo })
                else ub
              Except.ok (withMB
                { ub with availableUSD := ub.availableUSD - shortAmount }
                req.marketId (fun m =>
                  { m with lockedCollateralNo :=
                      m.lockedCollateralNo + shortAmount }))

/-- The admission transaction of `POST /api/order` (everything before the call
into `matchOrders`): parameter validation, balance load, find-or-create of the
per-market record, asset locking, `userBalance.save()` and `Order.create`.
On an error return nothing was persisted. Note: the handler performs no
settled-market check — it never loads the `Market` document. -/
def admitOrder (db : DB) (req : OrderReq) : Except OrderError (DB × Order) :=
  let uid := jsToLower req.userId
  if req.price < 0 ∨ 1 < req.price then Except.error OrderError.invalidPrice
  else if req.quantity ≤ 0 then Except.error OrderError.invalidQuantity
  else
    match getUser db uid with
    | none => Except.error OrderError.userNotFound
    | some ub =>
        match lockAssets (ensureMB ub req.marketId) req with
        | Except.error e => Except.error e
        | Except.ok ub' =>
            let newOrder : Order :=
              { orderId := req.orderId, marketId := req.marketId,
                userId := uid, side := req.side, tokenType := req.tokenType,
                price := req.price, quantity := req.quantity,
                filledQuantity := 0, status := OrderStatus.OPEN,
                createdAt := req.createdAt }
            Except.ok
              ({ db with users := putUser db.users ub',
                         orders := db.orders ++ [newOrder] }, newOrder)

/-! ## Trade executor (`services/matchingEngine.ts`, `executeTrade`, latest
revision with locked-token accounting)

`none` models the `return` on the "insufficient locked collateral" integrity
error: the handler exits before `buyerBal.save()` / `sellerBal.save()`, so no
balance mutation is persisted. -/

/-- The `if (remainingToShort > 0)` block of the YES token-delivery section:
verify the seller's locked YES collateral covers the shortfall (otherwise
abort before any save: the integrity error), then mint the long for the buyer
and the paired NO for the seller.  The collateral is NOT consumed. -/
def shortYES (buyerBal sellerBal : UserBalance) (marketId : String)
    (remainingToShort collYes : ℚ) : Option (UserBalance × UserBalance) :=
  if 0 < remainingToShort then
    if collYes < remainingToShort then
      none  -- integrity error: abort before any save
    else
      some
        (withMB buyerBal marketId (fun m =>
            { m with yesTokens := m.yesTokens + remainingToShort }),
         withMB sellerBal marketId (fun m =>
            { m with noTokens := m.noTokens + remainingToShort }))
  else some (buyerBal, sellerBal)

/-- The `if (remainingToShort > 0)` block of the NO token-delivery section. -/
def shortNO (buyerBal sellerBal : UserBalance) (marketId : String)
    (remainingToShort collNo : ℚ) : Option (UserBalance × UserBalance) :=
  if 0 < remainingToShort then
    if collNo < remainingToShort then
      none  -- integrity error: abort before any save
    else
      some
        (withMB buyerBal marketId (fun m =>
            { m with noTokens := m.noTokens + remainingToShort }),
         withMB sellerBal marketId (fun m =>
            { m with yesTokens := m.yesTokens + remainingToShort }))
  else some (buyerBal, sellerBal)

/-- The YES branch of the token-delivery section: transfer from the seller's
locked inventory when it suffices; otherwise use whatever is locked
(`useLocked = min(quantity, lockedYesTokens)` under the `> 0` guard) and mint
the remainder via `shortYES`. -/
def deliverYES (buyerBal sellerBal : UserBalance) (marketId : String)
    (quantity : ℚ) : Option (UserBalance × UserBalance) :=
  if quantity ≤ (entryFor sellerBal marketId).lockedYesTokens then
    some
      (withMB buyerBal marketId (fun m =>
          { m with yesTokens := m.yesTokens + quantity }),
       withMB sellerBal marketId (fun m =>
          { m with lockedYesTokens := m.lockedYesTokens - quantity }))
  else if 0 < (entryFor sellerBal marketId).lockedYesTokens then
    shortYES
      (withMB buyerBal marketId (fun m =>
          { m with yesTokens := m.yesTokens +
              (min quantity (entryFor sellerBal marketId).lockedYesTokens) }))
      (withMB sellerBal marketId (fun m =>
          { m with lockedYesTokens := m.lockedYesTokens -
              (min quantity (entryFor sellerBal marketId).lockedYesTokens) }))
      marketId
      (quantity - min quantity (entryFor sellerBal marketId).lockedYesTokens)
      (entryFor sellerBal marketId).lockedCollateralYes
  else
    shortYES buyerBal sellerBal marketId quantity
      (entryFor sellerBal marketId).lockedCollateralYes

/-- The NO branch of the token-delivery section, symmetric to `deliverYES`. -/
def deliverNO (buyerBal sellerBal : UserBalance) (marketId : String)
    (quantity : ℚ) : Option (UserBalance × UserBalance) :=
  if quantity ≤ (entryFor sellerBal marketId).lockedNoTokens then
    some
      (withMB buyerBal marketId (fun m =>
          { m with noTokens := m.noTokens + quantity }),
       withMB sellerBal marketId (fun m =>
          { m with lockedNoTokens := m.lockedNoTokens - quantity }))
  else if 0 < (entryFor sellerBal marketId).lockedNoTokens then
    shortNO
      (withMB buyerBal marketId (fun m =>
          { m with noTokens := m.noTokens +
              (min quantity (entryFor sellerBal marketId).lockedNoTokens) }))
      (withMB sellerBal marketId (fun m =>
          { m with lockedNoTokens := m.lockedNoTokens -
              (min quantity (entryFor sellerBal marketId).lockedNoTokens) }))
      marketId
      (quantity - min quantity (entryFor sellerBal marketId).lockedNoTokens)
      (entryFor sellerBal marketId).lockedCollateralNo
  else
    shortNO buyerBal sellerBal marketId quantity
      (entryFor sellerBal marketId).lockedCollateralNo

/-- One fill applied to the two parties' balance documents.  Argument order
follows the source: buyer, seller, market, token type, execution price,
quantity, buyer's limit price.  Sections in source order: find-or-create of
the position records, seller payment, token delivery, buyer refund. -/
def executeTrade (buyerBal sellerBal : UserBalance) (marketId : String)
    (tokenType : TokenType) (price quantity buyerLimitPrice : ℚ) :
    Option (UserBalance × UserBalance) :=
  let buyerBal := ensureMB buyerBal marketId
  let sellerBal := ensureMB sellerBal marketId
  let totalCost := price * quantity
  let priceDifference := buyerLimitPrice - price
  let refundAmount := if 0 < priceDifference then priceDifference * quantity else 0
  -- Seller always receives payment for the trade.
  let sellerBal := { sellerBal with availableUSD := sellerBal.availableUSD + totalCost }
  let step :=
    match tokenType with
    | TokenType.YES => deliverYES buyerBal sellerBal marketId quantity
    | TokenType.NO => deliverNO buyerBal sellerBal marketId quantity
  match step with
  | none => none
  | some (buyerBal, sellerBal) =>
      let buyerBal :=
        if 0 < refundAmount then
          { buyerBal with availableUSD := buyerBal.availableUSD + refundAmount }
        else buyerBal
      some (buyerBal, sellerBal)

/-! ## Matching engine (`services/matchingEngine.ts`, `matchOrders`, latest
revision) -/

/-- The opposite side. -/
def oppositeSide : Side → Side
  | Side.BUY => Side.SELL
  | Side.SELL => Side.BUY

/-- The candidate filter of the `Order.findOne` query: same market, opposite
side, same token type, status OPEN or PARTIAL, price compatible with the
taker's limit, and not the taker's own user (`userId: { $ne: ... }`). -/
def isCandidate (taker : Order) (o : Order) : Bool :=
  o.marketId == taker.marketId &&
  o.side == oppositeSide taker.side &&
  o.tokenType == taker.tokenType &&
  (o.status == OrderStatus.OPEN || o.status == OrderStatus.PARTIAL) &&
  (match taker.side with
   | Side.BUY => decide (o.price ≤ taker.price)
   | Side.SELL => decide (taker.price ≤ o.price)) &&
  o.userId != taker.userId

/-- The sort `{ price: 1, createdAt: 1 }` (BUY taker) resp.
`{ price: -1, createdAt: 1 }` (SELL taker): `a` strictly precedes `b`. -/
def sortsBefore (side : Side) (a b : Order) : Bool :=
  match side with
  | Side.BUY =>
      decide (a.price < b.price) ||
      (a.price == b.price && decide (a.createdAt < b.createdAt))
  | Side.SELL =>
      decide (b.price < a.price) ||
      (a.price == b.price && decide (a.createdAt < b.createdAt))

/-- Keep the better of the best-so-far and the next candidate (ties keep the
earlier record, matching a stable sort). -/
def pickBest (side : Side) (acc : Option Order) (o : Order) : Option Order :=
  match acc with
  | none => some o
  | some b => if sortsBefore side o b then some o else some b

/-- `Order.findOne({...}).sort(sortOption)`: the first candidate under the
sort order. -/
def findBestOpposing (taker : Order) (orders : List Order) : Option Order :=
  (orders.filter (isCandidate taker)).foldl (pickBest taker.side) none

/-- Instrumentation of one `executeTrade` invocation: the identities the
engine computes and passes to the executor. -/
structure Fill where
  buyOrderId : String
  sellOrderId : String
  buyerId : String
  sellerId : String
  price : ℚ
  quantity : ℚ
deriving DecidableEq, Repr

/-- The `Trade.create` record of one loop iteration. -/
def mkTrade (db : DB) (taker m : Order) (remaining : ℚ) : Trade :=
  { tradeId := toString db.trades.length,
    marketId := taker.marketId,
    buyOrderId := if taker.side == Side.BUY then taker.orderId else m.orderId,
    sellOrderId := if taker.side == Side.SELL then taker.orderId else m.orderId,
    price := m.price,
    quantity := min remaining (m.quantity - m.filledQuantity),
    tokenType := taker.tokenType }

/-- Outcome of one iteration of the `while` loop of `matchOrders`. -/
inductive IterOut where
  /-- No opposing order: `stillOpen = false; break`. -/
  | exit
  /-- Bookkeeping anomaly (`availableQty <= 0`): maker marked FILLED,
  `continue`. -/
  | skip (db' : DB)
  /-- Buyer or seller balance document missing: `remainingQty = 0; break`
  (trade record and order updates already persisted). -/
  | halt (db' : DB) (taker' : Order)
  /-- A fill was processed (whether or not the executor persisted balances);
  loop proceeds with the new remaining quantity. -/
  | next (db' : DB) (taker' : Order) (remaining' : ℚ) (fill : Fill)
deriving DecidableEq

/-- One iteration of the matching loop, exactly the body of the `while` in
`matchOrders`. -/
def matchIter (db : DB) (taker : Order) (remaining : ℚ) : IterOut :=
  match findBestOpposing taker db.orders with
  | none => IterOut.exit
  | some m =>
      let availableQty := m.quantity - m.filledQuantity
      if availableQty ≤ 0 then
        IterOut.skip (saveOrder db { m with status := OrderStatus.FILLED })
      else
        let matchQty := min remaining availableQty
        let executionPrice := m.price
        let trade := mkTrade db taker m remaining
        let db := { db with trades := db.trades ++ [trade] }
        let taker1 :=
          { taker with
            filledQuantity := taker.filledQuantity + matchQty,
            status := if taker.filledQuantity + matchQty == taker.quantity
              then OrderStatus.FILLED else OrderStatus.PARTIAL }
        let m1 :=
          { m with
            filledQuantity := m.filledQuantity + matchQty,
            status := if m.filledQuantity + matchQty == m.quantity
              then OrderStatus.FILLED else OrderStatus.PARTIAL }
        let db := saveOrder (saveOrder db m1) taker1
        let buyerId := if taker.side == Side.BUY then taker.userId else m.userId
        let sellerId := if taker.side == Side.SELL then taker.userId else m.userId
        let buyerLimitPrice := if taker.side == Side.BUY then taker.price else m.price
        let fill : Fill :=
          { buyOrderId := trade.buyOrderId, sellOrderId := trade.sellOrderId,
            buyerId := buyerId, sellerId := sellerId,
            price := executionPrice, quantity := matchQty }
        match getUser db buyerId, getUser db sellerId with
        | some buyerBal, some sellerBal =>
            let db :=
              match executeTrade buyerBal sellerBal taker.marketId
                  taker.tokenType executionPrice matchQty buyerLimitPrice with
              | some (buyerBal', sellerBal') =>
                  { db with users := putUser (putUser db.users buyerBal') sellerBal' }
              | none => db  -- integrity error: balance saves skipped
            let remaining' := remaining - matchQty
            let taker2 :=
              { taker1 with
                status := if remaining' ≤ 0 then OrderStatus.FILLED
                  else OrderStatus.PARTIAL }
            IterOut.next (saveOrder db taker2) taker2 remaining' fill
        | _, _ => IterOut.halt db taker1

/-- The `while (stillOpen && remainingQty > 0)` loop, with fuel for
termination; the accumulated `Fill`s instrument the executor invocations. -/
def matchLoop : ℕ → DB → Order → ℚ → List Fill → DB × Order × ℚ × List Fill
  | 0, db, taker, remaining, fills => (db, taker, remaining, fills)
  | Nat.succ fuel, db, taker, remaining, fills =>
      if 0 < remaining then
        match matchIter db taker remaining with
        | IterOut.exit => (db, taker, remaining, fills)
        | IterOut.skip db' => matchLoop fuel db' taker remaining fills
        | IterOut.halt db' taker' => (db', taker', 0, fills)
        | IterOut.next db' taker' remaining' fill =>
            matchLoop fuel db' taker' remaining' (fills ++ [fill])
      else (db, taker, remaining, fills)

/-- `matchOrders(incomingOrder)`: the loop followed by the final status
fix-up (OPEN/PARTIAL when quantity remains). -/
def matchOrders (fuel : ℕ) (db : DB) (taker : Order) :
    DB × Order × List Fill :=
  let remaining := taker.quantity - taker.filledQuantity
  let r := matchLoop fuel db taker remaining []
  let db' := r.1
  let taker' := r.2.1
  let remaining' := r.2.2.1
  let fills := r.2.2.2
  if 0 < remaining' ∧ taker'.status ≠ OrderStatus.FILLED then
    let taker'' :=
      { taker' with
        status := if 0 < taker'.filledQuantity then OrderStatus.PARTIAL
          else OrderStatus.OPEN }
    (saveOrder db' taker'', taker'', fills)
  else (db', taker', fills)

/-- The full `POST /api/order` flow: admission then synchronous matching. -/
def placeOrder (fuel : ℕ) (db : DB) (req : OrderReq) :
    Except OrderError (DB × Order × List Fill) :=
  match admitOrder db req with
  | Except.error e => Except.error e
  | Except.ok (db', newOrder) => Except.ok (matchOrders fuel db' newOrder)

/-! ## Settlement (`services/settlementService.ts`, `settleMarket`, latest
revision) -/

/-- The open-order predicate of Phase 1 (`status: { $in: ["OPEN","PARTIAL"] }`
on the market). -/
def isOpenOrder (marketId : String) (o : Order) : Bool :=
  o.marketId == marketId &&
  (o.status == OrderStatus.OPEN || o.status == OrderStatus.PARTIAL)

/-- The BUY-refund map of Phase 1: for each user, the sum of
`unfilledQuantity * price` over their open BUY orders of the market (orders
with `unfilledQuantity <= 0` are skipped by the `continue`). -/
def refundOf (db : DB) (marketId uid : String) : ℚ :=
  ((db.orders.filter (isOpenOrder marketId)).filter (fun o =>
      decide (0 < o.quantity - o.filledQuantity) &&
      o.side == Side.BUY && o.userId == uid)).foldl
    (fun acc o => acc + (o.quantity - o.filledQuantity) * o.price) 0

/-- Phase 1 order cancellation: every open/partial order of the market with a
positive unfilled remainder becomes CANCELLED. -/
def cancelOrder (marketId : String) (o : Order) : Order :=
  if isOpenOrder marketId o && decide (0 < o.quantity - o.filledQuantity) then
    { o with status := OrderStatus.CANCELLED }
  else o

/-- `if (m.lockedYesTokens > 0) { yesTokens += lockedYesTokens; lockedYesTokens = 0 }`. -/
def releaseYes (m : MarketBalance) : MarketBalance :=
  if 0 < m.lockedYesTokens then
    { m with yesTokens := m.yesTokens + m.lockedYesTokens,
             lockedYesTokens := 0 }
  else m

/-- `if (m.lockedNoTokens > 0) { noTokens += lockedNoTokens; lockedNoTokens = 0 }`. -/
def releaseNo (m : MarketBalance) : MarketBalance :=
  if 0 < m.lockedNoTokens then
    { m with noTokens := m.noTokens + m.lockedNoTokens,
             lockedNoTokens := 0 }
  else m

/-- Step 3 of settlement Phase 2: release remaining locked tokens. -/
def releaseLocks (m : MarketBalance) : MarketBalance := releaseNo (releaseYes m)

/-- Step "reset position": zero out all six numeric fields. -/
def resetMB (m : MarketBalance) : MarketBalance :=
  { m with yesTokens := 0, noTokens := 0,
           lockedYesTokens := 0, lockedNoTokens := 0,
           lockedCollateralYes := 0, lockedCollateralNo := 0 }

/-- The outcome payout read from the (post-release) position record: winning
tokens pay one unit each, plus the returned collateral of the winning short
side; the losing side's collateral is forfeited (not credited). -/
def payoutOf (outcome : TokenType) (m : MarketBalance) : ℚ :=
  match outcome with
  | TokenType.YES => m.yesTokens + m.lockedCollateralNo
  | TokenType.NO => m.noTokens + m.lockedCollateralYes

/-- Phase 2 applied to one user document: BUY refund, release of locked
tokens, outcome payout with collateral disposition, position reset.  A user
without a position record for the market is skipped (`if (!m) continue`). -/
def settleUser (marketId : String) (outcome : TokenType) (refund : ℚ)
    (ub : UserBalance) : UserBalance :=
  match findMB ub marketId with
  | none => ub
  | some _ =>
      let ub := { ub with availableUSD := ub.availableUSD + refund }
      -- move lockedYesTokens → yesTokens, lockedNoTokens → noTokens
      let ub := withMB ub marketId releaseLocks
      let payout := payoutOf outcome (entryFor ub marketId)
      let ub := { ub with availableUSD := ub.availableUSD + payout }
      withMB ub marketId resetMB

/-- `settleMarket(marketId, outcome)`: `none` models the thrown errors
(market not found / already settled), on which nothing is mutated. -/
def settleMarket (db : DB) (marketId : String) (outcome : TokenType) :
    Option DB :=
  match db.markets.find? (fun mk => mk.marketId == marketId) with
  | none => none
  | some mkt =>
      if mkt.settled then none
      else
        some
          { db with
            orders := db.orders.map (cancelOrder marketId),
            users := db.users.map (fun ub =>
              settleUser marketId outcome (refundOf db marketId ub.userId) ub),
            markets := db.markets.map (fun mk =>
              if mk.marketId == marketId then
                { mk with settled := true, outcome := some outcome }
              else mk) }

/-! ## Signature middleware (`middleware/verifySignature.ts`, latest revision)

The Ed25519 and secp256k1 primitives (and the base58/base64/bech32 decoders
feeding them) are abstracted as boolean-valued parameters `solanaSigOk` and
`xionSigOk`; the middleware's own control flow — field-presence checks, chain
dispatch, and the empty `sonicBlazeTestnet` branch — is embedded directly. -/

/-- The request body fields the middleware destructures.  JavaScript
truthiness of the string fields is `≠ ""`; `price === undefined` /
`quantity === undefined` are `Option.isSome` checks. -/
structure VerifyReq where
  signature : String
  chainId : String
  userWallet : String
  marketId : String
  userId : String
  sideField : String
  price : Option ℚ
  quantity : Option ℚ
  tokenType : String
  userSessionPubKey : String
  userSessionAddress : String
deriving DecidableEq, Repr

/-- Middleware outcome: pass the request on (`next()`) or reject it with a
400/500 response. -/
inductive VerifyOutcome where
  | next
  | reject
deriving DecidableEq, Repr

/-- `verifySignature(req, res, next)`. -/
def verifySignature (solanaSigOk xionSigOk : VerifyReq → Bool)
    (r : VerifyReq) : VerifyOutcome :=
  if r.signature == "" || r.chainId == "" || r.userWallet == "" then
    VerifyOutcome.reject
  else if jsToLower r.chainId == "solana" then
    if r.marketId == "" || r.userId == "" || r.sideField == "" ||
        r.price.isNone || r.quantity.isNone then
      VerifyOutcome.reject
    else if solanaSigOk r then VerifyOutcome.next else VerifyOutcome.reject
  else if r.chainId == "xion-testnet-1" then
    if r.marketId == "" || r.userId == "" || r.sideField == "" ||
        r.price.isNone || r.quantity.isNone ||
        r.userSessionPubKey == "" || r.userSessionAddress == "" then
      VerifyOutcome.reject
    else if xionSigOk r then VerifyOutcome.next else VerifyOutcome.reject
  else if r.chainId == "sonicBlazeTestnet" then
    -- TODO branch in the source: no verification is performed; control falls
    -- through to `next()`.
    VerifyOutcome.next
  else
    VerifyOutcome.reject

/-! ## Market-level balance sums and reachable states

These definitions support the ledger invariants of §8 of the specification:
per-market sums over all users of token supply and locked collateral, and the
transition system whose states are the stores committed by the three ledger
operations (order admission, one matching-loop iteration with its fill,
settlement). -/

/-- Contribution of one position record to a market's YES supply
(free plus locked YES tokens). -/
def mbYes (marketId : String) (m : MarketBalance) : ℚ :=
  if m.marketId == marketId then m.yesTokens + m.lockedYesTokens else 0

/-- Contribution of one position record to a market's NO supply. -/
def mbNo (marketId : String) (m : MarketBalance) : ℚ :=
  if m.marketId == marketId then m.noTokens + m.lockedNoTokens else 0

/-- Contribution of one position record to a market's locked YES collateral. -/
def mbCollYes (marketId : String) (m : MarketBalance) : ℚ :=
  if m.marketId == marketId then m.lockedCollateralYes else 0

/-- One user's YES supply in a market. -/
def userYes (marketId : String) (u : UserBalance) : ℚ :=
  (u.markets.map (mbYes marketId)).sum

/-- One user's NO supply in a market. -/
def userNo (marketId : String) (u : UserBalance) : ℚ :=
  (u.markets.map (mbNo marketId)).sum

/-- One user's locked YES collateral in a market. -/
def userCollYes (marketId : String) (u : UserBalance) : ℚ :=
  (u.markets.map (mbCollYes marketId)).sum

/-- `Σ yesTokens + Σ lockedYesTokens` over all users, for one market. -/
def yesSupply (db : DB) (marketId : String) : ℚ :=
  (db.users.map (userYes marketId)).sum

/-- `Σ noTokens + Σ lockedNoTokens` over all users, for one market. -/
def noSupply (db : DB) (marketId : String) : ℚ :=
  (db.users.map (userNo marketId)).sum

/-- `Σ lockedCollateralYes` over all users, for one market. -/
def collYesSupply (db : DB) (marketId : String) : ℚ :=
  (db.users.map (userCollYes marketId)).sum

/-- A user document is well formed when it has at most one position record per
market (the latest schema; duplicate records are migration debris). -/
def WFUser (u : UserBalance) : Prop :=
  (u.markets.map MarketBalance.marketId).Nodup

/-- Store well-formedness: every user document is well formed. -/
def WFDB (db : DB) : Prop := ∀ u ∈ db.users, WFUser u

/-- Initial stores: deposits may have credited `availableUSD`, but no market
has been traded (no position records, no orders, no trades). -/
def InitDB (db : DB) : Prop :=
  (∀ u ∈ db.users, u.markets = []) ∧ db.orders = [] ∧ db.trades = []

/-- Stores reachable through committed ledger operations: an initial store,
followed by order admissions, matching-loop iterations (each containing at
most one fill applied by the trade executor), order-status write-backs, and
settlements. -/
inductive Reachable : DB → Prop where
  | init (db : DB) : InitDB db → Reachable db
  | admission (db db' : DB) (req : OrderReq) (o : Order) :
      Reachable db → admitOrder db req = Except.ok (db', o) → Reachable db'
  | iterSkip (db db' : DB) (taker : Order) (remaining : ℚ) :
      Reachable db → matchIter db taker remaining = IterOut.skip db' →
      Reachable db'
  | iterHalt (db db' : DB) (taker taker' : Order) (remaining : ℚ) :
      Reachable db → matchIter db taker remaining = IterOut.halt db' taker' →
      Reachable db'
  | iterNext (db db' : DB) (taker taker' : Order) (remaining remaining' : ℚ)
      (fill : Fill) :
      Reachable db →
      matchIter db taker remaining = IterOut.next db' taker' remaining' fill →
      Reachable db'
  | statusFix (db : DB) (o : Order) :
      Reachable db → Reachable (saveOrder db o)
  | settle (db db' : DB) (marketId : String) (outcome : TokenType) :
      Reachable db → settleMarket db marketId outcome = some db' →
      Reachable db'

instance {e a : Type} [DecidableEq e] [DecidableEq a] :
    DecidableEq (Except e a) := fun x y =>
  match x, y with
  | Except.ok v, Except.ok w =>
      if h : v = w then Decidable.isTrue (by rw [h])
      else Decidable.isFalse (by intro hc; cases hc; exact h rfl)
  | Except.ok _, Except.error _ => Decidable.isFalse (by intro hc; cases hc)
  | Except.error _, Except.ok _ => Decidable.isFalse (by intro hc; cases hc)
  | Except.error v, Except.error w =>
      if h : v = w then Decidable.isTrue (by rw [h])
      else Decidable.isFalse (by intro hc; cases hc; exact h rfl)

instance : DecidableEq (Except OrderError (DB × Order)) := fun a b =>
  match a, b with
  | Except.ok x, Except.ok y =>
      if h : x = y then Decidable.isTrue (by rw [h])
      else Decidable.isFalse (by intro hc; cases hc; exact h rfl)
  | Except.ok _, Except.error _ => Decidable.isFalse (by intro hc; cases hc)
  | Except.error _, Except.ok _ => Decidable.isFalse (by intro hc; cases hc)
  | Except.error x, Except.error y =>
      if h : x = y then Decidable.isTrue (by rw [h])
      else Decidable.isFalse (by intro hc; cases hc; exact h rfl)

/-! ## Concrete stores and requests used to evaluate the embedding -/

/-- `true` iff admission returned the ok branch (an order was created). -/
def admitOk : Except OrderError (DB × Order) → Bool
  | Except.ok _ => true
  | Except.error _ => false

/-- The status of the order created by an admission, when one was. -/
def admittedStatus : Except OrderError (DB × Order) → Option OrderStatus
  | Except.ok (_, o) => some o.status
  | Except.error _ => none

/-- A store whose only market is already settled, with one funded user. -/
def dbC2 : DB :=
  { users := [{ userId := "alice", availableUSD := 10, markets := [] }],
    orders := [], trades := [],
    markets := [{ marketId := "m1", settled := true,
                  outcome := some TokenType.YES }] }

/-- A BUY order submitted against the settled market of `dbC2`. -/
def reqC2 : OrderReq :=
  { orderId := "o1", marketId := "m1", userId := "alice", side := Side.BUY,
    tokenType := TokenType.YES, price := 1/2, quantity := 1, createdAt := 0 }

/-- A fresh store with one funded user and one open market. -/
def dbC1 : DB :=
  { users := [{ userId := "bob", availableUSD := 5, markets := [] }],
    orders := [], trades := [],
    markets := [{ marketId := "m1", settled := false, outcome := none }] }

/-- A short SELL of one YES token (the seller owns none). -/
def reqC1 : OrderReq :=
  { orderId := "o1", marketId := "m1", userId := "bob", side := Side.SELL,
    tokenType := TokenType.YES, price := 1/2, quantity := 1, createdAt := 0 }

/-- The order admission of `reqC1` creates. -/
def oC1 : Order :=
  { orderId := "o1", marketId := "m1", userId := "bob", side := Side.SELL,
    tokenType := TokenType.YES, price := 1/2, quantity := 1,
    filledQuantity := 0, status := OrderStatus.OPEN, createdAt := 0 }

/-- The store committed by admitting `reqC1` on `dbC1`: one unit of YES
collateral is locked while no token has been minted yet. -/
def dbC1' : DB :=
  { users := [{ userId := "bob", availableUSD := 4, markets :=
      [{ marketId := "m1", yesTokens := 0, noTokens := 0,
         lockedYesTokens := 0, lockedNoTokens := 0,
         lockedCollateralYes := 1, lockedCollateralNo := 0 }] }],
    orders := [oC1], trades := [],
    markets := [{ marketId := "m1", settled := false, outcome := none }] }

/-- A BUY request with fractional quantity 1/2. -/
def reqC9 : OrderReq :=
  { orderId := "o9", marketId := "m1", userId := "bob", side := Side.BUY,
    tokenType := TokenType.YES, price := 1/2, quantity := 1/2, createdAt := 0 }

/-- A resting SELL order whose owner's ledger backs none of it: the
inconsistent state that triggers the executor's integrity error. -/
def sellC7 : Order :=
  { orderId := "s1", marketId := "m1", userId := "sam", side := Side.SELL,
    tokenType := TokenType.YES, price := 1/2, quantity := 2,
    filledQuantity := 0, status := OrderStatus.OPEN, createdAt := 0 }

/-- The incoming BUY taker matched against `sellC7`. -/
def buyC7 : Order :=
  { orderId := "b1", marketId := "m1", userId := "bea", side := Side.BUY,
    tokenType := TokenType.YES, price := 1/2, quantity := 2,
    filledQuantity := 0, status := OrderStatus.OPEN, createdAt := 1 }

/-- A store where `sellC7` rests while its seller has neither locked tokens
nor locked collateral (a ledger inconsistency). -/
def dbC7 : DB :=
  { users :=
      [{ userId := "bea", availableUSD := 0, markets :=
          [MarketBalance.empty "m1"] },
       { userId := "sam", availableUSD := 0, markets :=
          [MarketBalance.empty "m1"] }],
    orders := [sellC7, buyC7], trades := [],
    markets := [{ marketId := "m1", settled := false, outcome := none }] }

/-- A request on the `sonicBlazeTestnet` chain with all required fields. -/
def rC10 : VerifyReq :=
  { signature := "sig-blob-1", chainId := "sonicBlazeTestnet",
    userWallet := "0xabc", marketId := "m1", userId := "alice",
    sideField := "BUY", price := some (1/2), quantity := some 1,
    tokenType := "YES", userSessionPubKey := "", userSessionAddress := "" }

/-- The store after the single matching iteration of `dbC7` (used to
evaluate the price-time-priority property on a concrete iteration). -/
def dbC6' : DB :=
  { users := dbC7.users,
    orders :=
      [{ sellC7 with filledQuantity := 2, status := OrderStatus.FILLED },
       { buyC7 with filledQuantity := 2, status := OrderStatus.FILLED }],
    trades := [{ tradeId := "0", marketId := "m1", buyOrderId := "b1",
                 sellOrderId := "s1", price := 1/2, quantity := 2,
                 tokenType := TokenType.YES }],
    markets := dbC7.markets }

/-- The taker order as left by that iteration. -/
def takerC6' : Order :=
  { buyC7 with filledQuantity := 2, status := OrderStatus.FILLED }

/-- The fill instrumented for that iteration. -/
def fillC6 : Fill :=
  { buyOrderId := "b1", sellOrderId := "s1", buyerId := "bea",
    sellerId := "sam", price := 1/2, quantity := 2 }

/-- A taker whose only price-compatible opposite-side order is their own
(used to evaluate the no-self-match resting case). -/
def takerC8 : Order :=
  { orderId := "t8", marketId := "m1", userId := "una", side := Side.BUY,
    tokenType := TokenType.YES, price := 1/2, quantity := 1,
    filledQuantity := 0, status := OrderStatus.OPEN, createdAt := 5 }

/-- The resting opposite-side order of the same user. -/
def oC8 : Order :=
  { orderId := "s8", marketId := "m1", userId := "una", side := Side.SELL,
    tokenType := TokenType.YES, price := 1/2, quantity := 1,
    filledQuantity := 0, status := OrderStatus.OPEN, createdAt := 1 }

/-- A store whose book holds only `oC8`. -/
def dbC8 : DB :=
  { users := [], orders := [oC8], trades := [], markets := [] }

/-- A buyer for a concrete executor run: funds only, no position record. -/
def bC3 : UserBalance := { userId := "bea", availableUSD := 10, markets := [] }

/-- A seller for a concrete executor run: 1 locked YES token and 2 units of
YES collateral, so a 3-unit fill uses the inventory and mints a 2-unit
short. -/
def sC3 : UserBalance :=
  { userId := "sam", availableUSD := 0,
    markets := [{ marketId := "m1", yesTokens := 0, noTokens := 0,
                  lockedYesTokens := 1, lockedNoTokens := 0,
                  lockedCollateralYes := 2, lockedCollateralNo := 0 }] }

/-- The buyer balance produced by
`executeTrade bC3 sC3 "m1" YES (1/2) 3 (2/3)`. -/
def b'C3 : UserBalance :=
  { userId := "bea", availableUSD := 21/2,
    markets := [{ marketId := "m1", yesTokens := 3, noTokens := 0,
                  lockedYesTokens := 0, lockedNoTokens := 0,
                  lockedCollateralYes := 0, lockedCollateralNo := 0 }] }

/-- The seller balance produced by the same run. -/
def s'C3 : UserBalance :=
  { userId := "sam", availableUSD := 3/2,
    markets := [{ marketId := "m1", yesTokens := 0, noTokens := 2,
                  lockedYesTokens := 0, lockedNoTokens := 0,
                  lockedCollateralYes := 2, lockedCollateralNo := 0 }] }

/-- The per-market record of `ubC4`: one YES token, nothing else. -/
def mC4 : MarketBalance :=
  { marketId := "m1", yesTokens := 1, noTokens := 0, lockedYesTokens := 0,
    lockedNoTokens := 0, lockedCollateralYes := 0, lockedCollateralNo := 0 }

/-- A user with 1 USD and 1 YES token (used to evaluate the admission
locking rules on a failing short sale). -/
def ubC4 : UserBalance :=
  { userId := "uma", availableUSD := 1, markets := [mC4] }

/-- A SELL YES request for 4 units: 1 from inventory, 3 units of collateral
required against 1 USD available. -/
def reqC4 : OrderReq :=
  { orderId := "o4", marketId := "m1", userId := "uma", side := Side.SELL,
    tokenType := TokenType.YES, price := 1/2, quantity := 4, createdAt := 9 }

/-- A store holding only `ubC4`. -/
def dbC4 : DB := { users := [ubC4], orders := [], trades := [], markets := [] }

/-- A position with tokens, locked tokens and collateral on both sides
(used to evaluate settlement). -/
def mC5 : MarketBalance :=
  { marketId := "m1", yesTokens := 1, noTokens := 0, lockedYesTokens := 2,
    lockedNoTokens := 0, lockedCollateralYes := 4, lockedCollateralNo := 3 }

/-- The holder of `mC5`. -/
def ubC5 : UserBalance :=
  { userId := "ula", availableUSD := 0, markets := [mC5] }

/-- An open BUY order of `ubC5` with 2 unfilled units at price 1/2
(refund 1 at settlement). -/
def oC5 : Order :=
  { orderId := "b5", marketId := "m1", userId := "ula", side := Side.BUY,
    tokenType := TokenType.YES, price := 1/2, quantity := 2,
    filledQuantity := 0, status := OrderStatus.OPEN, createdAt := 1 }

/-- A store ready for settlement of market `m1`. -/
def dbC5 : DB :=
  { users := [ubC5], orders := [oC5], trades := [],
    markets := [{ marketId := "m1", settled := false, outcome := none }] }

/-- The store produced by `settleMarket dbC5 "m1" YES`: order cancelled,
the user paid refund 1 plus payout 1 + 2 + 3 with the 4 units of YES
collateral forfeited, position zeroed, market flagged settled. -/
def db5' : DB :=
  { users := [{ userId := "ula", availableUSD := 7,
                markets := [MarketBalance.empty "m1"] }],
    orders := [{ oC5 with status := OrderStatus.CANCELLED }],
    trades := [],
    markets := [{ marketId := "m1", settled := true,
                  outcome := some TokenType.YES }] }

/-! ## Toolkit: sums over the store primitives -/

lemma sum_map_updMB (l : List MarketBalance) (marketId : String)
    (f : MarketBalance → MarketBalance) (g : MarketBalance → ℚ) :
    ((updMB l marketId f).map g).sum =
      (l.map g).sum +
        (match l.find? (fun m => m.marketId == marketId) with
         | some m => g (f m) - g m
         | none => 0) := by
  induction l with
  | nil => simp [updMB]
  | cons m rest ih =>
      cases hm : (m.marketId == marketId) with
      | true => simp [updMB, hm]; ring
      | false => simp [updMB, hm, ih]; ring

lemma updMB_map_marketId (l : List MarketBalance) (marketId : String)
    (f : MarketBalance → MarketBalance)
    (hf : ∀ m, (f m).marketId = m.marketId) :
    (updMB l marketId f).map MarketBalance.marketId =
      l.map MarketBalance.marketId := by
  induction l with
  | nil => rfl
  | cons m rest ih =>
      cases hm : (m.marketId == marketId) with
      | true => simp [updMB, hm, hf]
      | false => simp [updMB, hm, ih]

lemma find?_updMB (l : List MarketBalance) (marketId : String)
    (f : MarketBalance → MarketBalance)
    (hf : ∀ m, (f m).marketId = m.marketId) :
    (updMB l marketId f).find? (fun m => m.marketId == marketId) =
      (l.find? (fun m => m.marketId == marketId)).map f := by
  induction l with
  | nil => rfl
  | cons m rest ih =>
      cases hm : (m.marketId == marketId) with
      | true =>
          have hmf : ((f m).marketId == marketId) = true := by
            simp [hf]; simpa using hm
          simp [updMB, hm, hmf]
      | false => simp [updMB, hm, ih]

lemma mem_putUser {users : List UserBalance} {u' v : UserBalance}
    (hv : v ∈ putUser users u') : v ∈ users ∨ v = u' := by
  induction users with
  | nil => simpa [putUser] using hv
  | cons w rest ih =>
      cases hw : (w.userId == u'.userId) with
      | true =>
          simp only [putUser, hw, if_true] at hv
          rcases List.mem_cons.mp hv with h | h
          · exact Or.inr h
          · exact Or.inl (List.mem_cons_of_mem _ h)
      | false =>
          simp only [putUser, hw, Bool.false_eq_true, if_false] at hv
          rcases List.mem_cons.mp hv with h | h
          · exact Or.inl (h ▸ List.mem_cons_self _ _)
          · rcases ih h with h' | h'
            · exact Or.inl (List.mem_cons_of_mem _ h')
            · exact Or.inr h'

lemma sum_map_putUser (users : List UserBalance) (u' u : UserBalance)
    (h : UserBalance → ℚ)
    (hu : users.find? (fun v => v.userId == u'.userId) = some u) :
    ((putUser users u').map h).sum = (users.map h).sum + h u' - h u := by
  induction users with
  | nil => simp at hu
  | cons w rest ih =>
      cases hw : (w.userId == u'.userId) with
      | true =>
          have hfind : List.find? (fun v => v.userId == u'.userId) (w :: rest)
              = some w := by simp [hw]
          rw [hfind] at hu
          cases hu
          simp [putUser, hw]
          ring
      | false =>
          have hfind : List.find? (fun v => v.userId == u'.userId) (w :: rest)
              = List.find? (fun v => v.userId == u'.userId) rest := by
            simp [hw]
          rw [hfind] at hu
          simp [putUser, hw, ih hu]
          ring

lemma find?_putUser_ne (users : List UserBalance) (u' : UserBalance)
    (uid : String) (hne : (u'.userId == uid) = false) :
    (putUser users u').find? (fun v => v.userId == uid) =
      users.find? (fun v => v.userId == uid) := by
  induction users with
  | nil => simp [putUser, List.find?, hne]
  | cons w rest ih =>
      cases hw : (w.userId == u'.userId) with
      | true =>
          have hwid : w.userId = u'.userId := by simpa using hw
          have hwne : (w.userId == uid) = false := by
            simpa [hwid] using hne
          simp [putUser, hw, hwne, hne]
      | false =>
          cases hwu : (w.userId == uid) with
          | true => simp [putUser, hw, hwu]
          | false => simp [putUser, hw, hwu, ih]

lemma withMB_userId (u : UserBalance) (mId : String)
    (f : MarketBalance → MarketBalance) : (withMB u mId f).userId = u.userId :=
  rfl

lemma ensureMB_userId (u : UserBalance) (mId : String) :
    (ensureMB u mId).userId = u.userId := by
  unfold ensureMB; cases findMB u mId <;> rfl

lemma withMB_usd (u : UserBalance) (mId : String)
    (f : MarketBalance → MarketBalance) :
    (withMB u mId f).availableUSD = u.availableUSD := rfl

lemma ensureMB_usd (u : UserBalance) (mId : String) :
    (ensureMB u mId).availableUSD = u.availableUSD := by
  unfold ensureMB; cases findMB u mId <;> rfl

lemma findMB_ensureMB (u : UserBalance) (mId : String) :
    findMB (ensureMB u mId) mId = some (entryFor u mId) := by
  unfold ensureMB entryFor
  cases h : findMB u mId with
  | some m => simpa using h
  | none =>
      unfold findMB at h ⊢
      simp [List.find?_append, h, MarketBalance.empty]

lemma sum_map_ensureMB (u : UserBalance) (mId : String) (g : MarketBalance → ℚ)
    (hge : g (MarketBalance.empty mId) = 0) :
    ((ensureMB u mId).markets.map g).sum = (u.markets.map g).sum := by
  unfold ensureMB
  cases h : findMB u mId <;> simp [h, hge]

lemma sum_map_withMB (u : UserBalance) (mId : String)
    (f : MarketBalance → MarketBalance) (g : MarketBalance → ℚ)
    (m : MarketBalance) (hm : findMB u mId = some m) :
    ((withMB u mId f).markets.map g).sum =
      (u.markets.map g).sum + (g (f m) - g m) := by
  unfold withMB
  simp only [sum_map_updMB]
  unfold findMB at hm
  rw [hm]

lemma entryFor_withMB (u : UserBalance) (mId : String)
    (f : MarketBalance → MarketBalance) (m : MarketBalance)
    (hm : findMB u mId = some m)
    (hf : ∀ x, (f x).marketId = x.marketId) :
    entryFor (withMB u mId f) mId = f m := by
  unfold entryFor findMB withMB
  rw [find?_updMB _ _ _ hf]
  unfold findMB at hm
  rw [hm]
  rfl

lemma WFUser_withMB (u : UserBalance) (mId : String)
    (f : MarketBalance → MarketBalance)
    (hf : ∀ x, (f x).marketId = x.marketId) (h : WFUser u) :
    WFUser (withMB u mId f) := by
  unfold WFUser withMB at *
  rwa [updMB_map_marketId _ _ _ hf]

lemma WFUser_ensureMB (u : UserBalance) (mId : String) (h : WFUser u) :
    WFUser (ensureMB u mId) := by
  unfold WFUser ensureMB at *
  cases hf : findMB u mId with
  | some m => exact h
  | none =>
      have hnm : mId ∉ u.markets.map MarketBalance.marketId := by
        unfold findMB at hf
        rw [List.find?_eq_none] at hf
        intro hmem
        rcases List.mem_map.mp hmem with ⟨m, hm, hid⟩
        exact hf m hm (by simp [hid])
      simp [List.nodup_append, MarketBalance.empty, h]
      intro x hx hxid
      exact hnm (hxid ▸ List.mem_map_of_mem _ hx)

lemma mbYes_empty (mId' mId : String) : mbYes mId' (MarketBalance.empty mId) = 0 := by
  simp [mbYes, MarketBalance.empty]

lemma mbNo_empty (mId' mId : String) : mbNo mId' (MarketBalance.empty mId) = 0 := by
  simp [mbNo, MarketBalance.empty]

lemma mbCollYes_empty (mId' mId : String) :
    mbCollYes mId' (MarketBalance.empty mId) = 0 := by
  simp [mbCollYes, MarketBalance.empty]

lemma userYes_usd (mId' : String) (u : UserBalance) (x : ℚ) :
    userYes mId' { u with availableUSD := x } = userYes mId' u := rfl

lemma userNo_usd (mId' : String) (u : UserBalance) (x : ℚ) :
    userNo mId' { u with availableUSD := x } = userNo mId' u := rfl

lemma userYes_ensureMB (mId' : String) (u : UserBalance) (mId : String) :
    userYes mId' (ensureMB u mId) = userYes mId' u :=
  sum_map_ensureMB u mId _ (mbYes_empty mId' mId)

lemma userNo_ensureMB (mId' : String) (u : UserBalance) (mId : String) :
    userNo mId' (ensureMB u mId) = userNo mId' u :=
  sum_map_ensureMB u mId _ (mbNo_empty mId' mId)

lemma findMB_withMB (u : UserBalance) (mId : String)
    (f : MarketBalance → MarketBalance) (m : MarketBalance)
    (hm : findMB u mId = some m) (hf : ∀ x, (f x).marketId = x.marketId) :
    findMB (withMB u mId f) mId = some (f m) := by
  unfold findMB withMB
  rw [find?_updMB _ _ _ hf]
  unfold findMB at hm
  rw [hm]
  rfl

lemma findMB_marketId {u : UserBalance} {mId : String} {m : MarketBalance}
    (hm : findMB u mId = some m) : m.marketId = mId := by
  unfold findMB at hm
  simpa using List.find?_some hm

lemma findMB_usd (u : UserBalance) (mId : String) (x : ℚ) :
    findMB { u with availableUSD := x } mId = findMB u mId := rfl

/-- Net YES-minus-NO token position of one user in a market. -/
def userDiff (marketId : String) (u : UserBalance) : ℚ :=
  userYes marketId u - userNo marketId u

lemma userDiff_usd (mId' : String) (u : UserBalance) (x : ℚ) :
    userDiff mId' { u with availableUSD := x } = userDiff mId' u := rfl

lemma shortYES_diff (b s : UserBalance) (mId : String) (r c : ℚ)
    (b' s' : UserBalance) (mId' : String) (mb ms : MarketBalance)
    (hbm : findMB b mId = some mb) (hsm : findMB s mId = some ms)
    (h : shortYES b s mId r c = some (b', s')) :
    userDiff mId' b' + userDiff mId' s' = userDiff mId' b + userDiff mId' s := by
  have hbid : mb.marketId = mId := findMB_marketId hbm
  have hsid : ms.marketId = mId := findMB_marketId hsm
  unfold shortYES at h
  by_cases hr : 0 < r
  · rw [if_pos hr] at h
    by_cases hc : c < r
    · rw [if_pos hc] at h
      exact absurd h (by simp)
    · rw [if_neg hc] at h
      simp only [Option.some.injEq, Prod.mk.injEq] at h
      obtain ⟨hb', hs'⟩ := h
      subst hb' hs'
      unfold userDiff userYes userNo
      rw [sum_map_withMB _ _ _ _ _ hbm, sum_map_withMB _ _ _ _ _ hbm,
        sum_map_withMB _ _ _ _ _ hsm, sum_map_withMB _ _ _ _ _ hsm]
      simp only [mbYes, mbNo, hbid, hsid]
      by_cases h2 : (mId == mId') = true <;> simp [h2] <;> ring
  · rw [if_neg hr] at h
    simp only [Option.some.injEq, Prod.mk.injEq] at h
    obtain ⟨hb', hs'⟩ := h
    subst hb' hs'
    ring

lemma shortNO_diff (b s : UserBalance) (mId : String) (r c : ℚ)
    (b' s' : UserBalance) (mId' : String) (mb ms : MarketBalance)
    (hbm : findMB b mId = some mb) (hsm : findMB s mId = some ms)
    (h : shortNO b s mId r c = some (b', s')) :
    userDiff mId' b' + userDiff mId' s' = userDiff mId' b + userDiff mId' s := by
  have hbid : mb.marketId = mId := findMB_marketId hbm
  have hsid : ms.marketId = mId := findMB_marketId hsm
  unfold shortNO at h
  by_cases hr : 0 < r
  · rw [if_pos hr] at h
    by_cases hc : c < r
    · rw [if_pos hc] at h
      exact absurd h (by simp)
    · rw [if_neg hc] at h
      simp only [Option.some.injEq, Prod.mk.injEq] at h
      obtain ⟨hb', hs'⟩ := h
      subst hb' hs'
      unfold userDiff userYes userNo
      rw [sum_map_withMB _ _ _ _ _ hbm, sum_map_withMB _ _ _ _ _ hbm,
        sum_map_withMB _ _ _ _ _ hsm, sum_map_withMB _ _ _ _ _ hsm]
      simp only [mbYes, mbNo, hbid, hsid]
      by_cases h2 : (mId == mId') = true <;> simp [h2] <;> ring
  · rw [if_neg hr] at h
    simp only [Option.some.injEq, Prod.mk.injEq] at h
    obtain ⟨hb', hs'⟩ := h
    subst hb' hs'
    ring

lemma deliverYES_diff (b s : UserBalance) (mId : String) (q : ℚ)
    (b' s' : UserBalance) (mId' : String) (mb ms : MarketBalance)
    (hbm : findMB b mId = some mb) (hsm : findMB s mId = some ms)
    (h : deliverYES b s mId q = some (b', s')) :
    userDiff mId' b' + userDiff mId' s' = userDiff mId' b + userDiff mId' s := by
  have hbid : mb.marketId = mId := findMB_marketId hbm
  have hsid : ms.marketId = mId := findMB_marketId hsm
  have hentry : entryFor s mId = ms := by
    unfold entryFor; rw [hsm]; rfl
  unfold deliverYES at h
  rw [hentry] at h
  by_cases h1 : q ≤ ms.lockedYesTokens
  · rw [if_pos h1] at h
    simp only [Option.some.injEq, Prod.mk.injEq] at h
    obtain ⟨hb', hs'⟩ := h
    subst hb' hs'
    unfold userDiff userYes userNo
    rw [sum_map_withMB _ _ _ _ _ hbm, sum_map_withMB _ _ _ _ _ hbm,
      sum_map_withMB _ _ _ _ _ hsm, sum_map_withMB _ _ _ _ _ hsm]
    simp only [mbYes, mbNo, hbid, hsid]
    by_cases h2 : (mId == mId') = true <;> simp [h2] <;> ring
  · rw [if_neg h1] at h
    by_cases hc : 0 < ms.lockedYesTokens
    · rw [if_pos hc] at h
      have hbm1 : findMB (withMB b mId fun m =>
          { m with yesTokens := m.yesTokens + min q ms.lockedYesTokens }) mId
          = some { mb with yesTokens := mb.yesTokens + min q ms.lockedYesTokens } :=
        findMB_withMB _ _ _ _ hbm (fun _ => rfl)
      have hsm1 : findMB (withMB s mId fun m =>
          { m with lockedYesTokens := m.lockedYesTokens - min q ms.lockedYesTokens }) mId
          = some { ms with lockedYesTokens := ms.lockedYesTokens - min q ms.lockedYesTokens } :=
        findMB_withMB _ _ _ _ hsm (fun _ => rfl)
      have hstep := shortYES_diff _ _ _ _ _ _ _ mId' _ _ hbm1 hsm1 h
      have hby : userDiff mId' (withMB b mId fun m =>
          { m with yesTokens := m.yesTokens + min q ms.lockedYesTokens })
          = userDiff mId' b + (if (mId == mId') = true
            then min q ms.lockedYesTokens else 0) := by
        unfold userDiff userYes userNo
        rw [sum_map_withMB _ _ _ _ _ hbm, sum_map_withMB _ _ _ _ _ hbm]
        simp only [mbYes, mbNo, hbid]
        by_cases h2 : (mId == mId') = true <;> simp [h2] <;> ring
      have hsy : userDiff mId' (withMB s mId fun m =>
          { m with lockedYesTokens := m.lockedYesTokens - min q ms.lockedYesTokens })
          = userDiff mId' s - (if (mId == mId') = true
            then min q ms.lockedYesTokens else 0) := by
        unfold userDiff userYes userNo
        rw [sum_map_withMB _ _ _ _ _ hsm, sum_map_withMB _ _ _ _ _ hsm]
        simp only [mbYes, mbNo, hsid]
        by_cases h2 : (mId == mId') = true <;> simp [h2] <;> ring
      rw [hby, hsy] at hstep
      linarith [hstep]
    · rw [if_neg hc] at h
      exact shortYES_diff _ _ _ _ _ _ _ mId' _ _ hbm hsm h

lemma deliverNO_diff (b s : UserBalance) (mId : String) (q : ℚ)
    (b' s' : UserBalance) (mId' : String) (mb ms : MarketBalance)
    (hbm : findMB b mId = some mb) (hsm : findMB s mId = some ms)
    (h : deliverNO b s mId q = some (b', s')) :
    userDiff mId' b' + userDiff mId' s' = userDiff mId' b + userDiff mId' s := by
  have hbid : mb.marketId = mId := findMB_marketId hbm
  have hsid : ms.marketId = mId := findMB_marketId hsm
  have hentry : entryFor s mId = ms := by
    unfold entryFor; rw [hsm]; rfl
  unfold deliverNO at h
  rw [hentry] at h
  by_cases h1 : q ≤ ms.lockedNoTokens
  · rw [if_pos h1] at h
    simp only [Option.some.injEq, Prod.mk.injEq] at h
    obtain ⟨hb', hs'⟩ := h
    subst hb' hs'
    unfold userDiff userYes userNo
    rw [sum_map_withMB _ _ _ _ _ hbm, sum_map_withMB _ _ _ _ _ hbm,
      sum_map_withMB _ _ _ _ _ hsm, sum_map_withMB _ _ _ _ _ hsm]
    simp only [mbYes, mbNo, hbid, hsid]
    by_cases h2 : (mId == mId') = true <;> simp [h2] <;> ring
  · rw [if_neg h1] at h
    by_cases hc : 0 < ms.lockedNoTokens
    · rw [if_pos hc] at h
      have hbm1 : findMB (withMB b mId fun m =>
          { m with noTokens := m.noTokens + min q ms.lockedNoTokens }) mId
          = some { mb with noTokens := mb.noTokens + min q ms.lockedNoTokens } :=
        findMB_withMB _ _ _ _ hbm (fun _ => rfl)
      have hsm1 : findMB (withMB s mId fun m =>
          { m with lockedNoTokens := m.lockedNoTokens - min q ms.lockedNoTokens }) mId
          = some { ms with lockedNoTokens := ms.lockedNoTokens - min q ms.lockedNoTokens } :=
        findMB_withMB _ _ _ _ hsm (fun _ => rfl)
      have hstep := shortNO_diff _ _ _ _ _ _ _ mId' _ _ hbm1 hsm1 h
      have hby : userDiff mId' (withMB b mId fun m =>
          { m with noTokens := m.noTokens + min q ms.lockedNoTokens })
          = userDiff mId' b - (if (mId == mId') = true
            then min q ms.lockedNoTokens else 0) := by
        unfold userDiff userYes userNo
        rw [sum_map_withMB _ _ _ _ _ hbm, sum_map_withMB _ _ _ _ _ hbm]
        simp only [mbYes, mbNo, hbid]
        by_cases h2 : (mId == mId') = true <;> simp [h2] <;> ring
      have hsy : userDiff mId' (withMB s mId fun m =>
          { m with lockedNoTokens := m.lockedNoTokens - min q ms.lockedNoTokens })
          = userDiff mId' s + (if (mId == mId') = true
            then min q ms.lockedNoTokens else 0) := by
        unfold userDiff userYes userNo
        rw [sum_map_withMB _ _ _ _ _ hsm, sum_map_withMB _ _ _ _ _ hsm]
        simp only [mbYes, mbNo, hsid]
        by_cases h2 : (mId == mId') = true <;> simp [h2] <;> ring
      rw [hby, hsy] at hstep
      linarith [hstep]
    · rw [if_neg hc] at h
      exact shortNO_diff _ _ _ _ _ _ _ mId' _ _ hbm hsm h

lemma userDiff_refundIte (mId' : String) (u : UserBalance) (c : Prop)
    [Decidable c] (x : ℚ) :
    userDiff mId' (if c then { u with availableUSD := x } else u) =
      userDiff mId' u := by
  split <;> rfl

lemma userDiff_ensureMB (mId' : String) (u : UserBalance) (mId : String) :
    userDiff mId' (ensureMB u mId) = userDiff mId' u := by
  unfold userDiff
  rw [userYes_ensureMB, userNo_ensureMB]

lemma executeTrade_diff (b s : UserBalance) (mId : String) (tt : TokenType)
    (p q blp : ℚ) (b' s' : UserBalance) (mId' : String)
    (h : executeTrade b s mId tt p q blp = some (b', s')) :
    userDiff mId' b' + userDiff mId' s' = userDiff mId' b + userDiff mId' s := by
  have hbE : findMB (ensureMB b mId) mId = some (entryFor b mId) :=
    findMB_ensureMB b mId
  have hsE : findMB { ensureMB s mId with availableUSD :=
      (ensureMB s mId).availableUSD + p * q } mId = some (entryFor s mId) :=
    findMB_ensureMB s mId
  cases tt with
  | YES =>
      simp only [executeTrade] at h
      split at h
      · simp at h
      · rename_i bb sb heq
        simp only [Option.some.injEq, Prod.mk.injEq] at h
        obtain ⟨hb', hs'⟩ := h
        subst hb' hs'
        have hd := deliverYES_diff _ _ _ _ _ _ mId' _ _ hbE hsE heq
        have hseq : userDiff mId' { ensureMB s mId with availableUSD :=
            (ensureMB s mId).availableUSD + p * q } = userDiff mId' s := by
          have h1 : userDiff mId' { ensureMB s mId with availableUSD :=
              (ensureMB s mId).availableUSD + p * q } =
              userDiff mId' (ensureMB s mId) := rfl
          rw [h1, userDiff_ensureMB]
        rw [userDiff_refundIte, hd, hseq, userDiff_ensureMB]
  | NO =>
      simp only [executeTrade] at h
      split at h
      · simp at h
      · rename_i bb sb heq
        simp only [Option.some.injEq, Prod.mk.injEq] at h
        obtain ⟨hb', hs'⟩ := h
        subst hb' hs'
        have hd := deliverNO_diff _ _ _ _ _ _ mId' _ _ hbE hsE heq
        have hseq : userDiff mId' { ensureMB s mId with availableUSD :=
            (ensureMB s mId).availableUSD + p * q } = userDiff mId' s := by
          have h1 : userDiff mId' { ensureMB s mId with availableUSD :=
              (ensureMB s mId).availableUSD + p * q } =
              userDiff mId' (ensureMB s mId) := rfl
          rw [h1, userDiff_ensureMB]
        rw [userDiff_refundIte, hd, hseq, userDiff_ensureMB]

/-! ## Toolkit: best-opposing-order selection -/

lemma foldl_pickBest_mem (side : Side) :
    ∀ (l : List Order) (acc : Option Order) (m : Order),
      l.foldl (pickBest side) acc = some m → acc = some m ∨ m ∈ l := by
  intro l
  induction l with
  | nil => intro acc m h; exact Or.inl h
  | cons a rest ih =>
      intro acc m h
      rcases ih (pickBest side acc a) m h with h' | h'
      · cases acc with
        | none =>
            simp only [pickBest] at h'
            cases h'
            exact Or.inr (List.mem_cons_self _ _)
        | some b =>
            simp only [pickBest] at h'
            by_cases hb : sortsBefore side a b = true
            · rw [if_pos hb] at h'
              cases h'
              exact Or.inr (List.mem_cons_self _ _)
            · rw [if_neg hb] at h'
              exact Or.inl h'
      · exact Or.inr (List.mem_cons_of_mem _ h')

lemma findBestOpposing_mem {taker m : Order} {orders : List Order}
    (h : findBestOpposing taker orders = some m) :
    m ∈ orders ∧ isCandidate taker m = true := by
  unfold findBestOpposing at h
  rcases foldl_pickBest_mem taker.side _ none m h with h' | h'
  · exact absurd h' (by simp)
  · have := List.mem_filter.mp h'
    exact ⟨this.1, this.2⟩

lemma isCandidate_userId {taker o : Order} (h : isCandidate taker o = true) :
    o.userId ≠ taker.userId := by
  unfold isCandidate at h
  simp only [Bool.and_eq_true, bne_iff_ne, ne_eq] at h
  exact h.2

/-! ## Toolkit: the executor preserves user identity and well-formedness -/

lemma shortYES_userId {b s : UserBalance} {mId : String} {r c : ℚ}
    {b' s' : UserBalance} (h : shortYES b s mId r c = some (b', s')) :
    b'.userId = b.userId ∧ s'.userId = s.userId := by
  unfold shortYES at h
  by_cases hr : 0 < r
  · rw [if_pos hr] at h
    by_cases hc : c < r
    · rw [if_pos hc] at h; exact absurd h (by simp)
    · rw [if_neg hc] at h
      simp only [Option.some.injEq, Prod.mk.injEq] at h
      obtain ⟨hb, hs⟩ := h
      subst hb hs
      exact ⟨rfl, rfl⟩
  · rw [if_neg hr] at h
    simp only [Option.some.injEq, Prod.mk.injEq] at h
    obtain ⟨hb, hs⟩ := h
    subst hb hs
    exact ⟨rfl, rfl⟩

lemma shortNO_userId {b s : UserBalance} {mId : String} {r c : ℚ}
    {b' s' : UserBalance} (h : shortNO b s mId r c = some (b', s')) :
    b'.userId = b.userId ∧ s'.userId = s.userId := by
  unfold shortNO at h
  by_cases hr : 0 < r
  · rw [if_pos hr] at h
    by_cases hc : c < r
    · rw [if_pos hc] at h; exact absurd h (by simp)
    · rw [if_neg hc] at h
      simp only [Option.some.injEq, Prod.mk.injEq] at h
      obtain ⟨hb, hs⟩ := h
      subst hb hs
      exact ⟨rfl, rfl⟩
  · rw [if_neg hr] at h
    simp only [Option.some.injEq, Prod.mk.injEq] at h
    obtain ⟨hb, hs⟩ := h
    subst hb hs
    exact ⟨rfl, rfl⟩

lemma deliverYES_userId {b s : UserBalance} {mId : String} {q : ℚ}
    {b' s' : UserBalance} (h : deliverYES b s mId q = some (b', s')) :
    b'.userId = b.userId ∧ s'.userId = s.userId := by
  unfold deliverYES at h
  by_cases h1 : q ≤ (entryFor s mId).lockedYesTokens
  · rw [if_pos h1] at h
    simp only [Option.some.injEq, Prod.mk.injEq] at h
    obtain ⟨hb, hs⟩ := h
    subst hb hs
    exact ⟨rfl, rfl⟩
  · rw [if_neg h1] at h
    by_cases hc : 0 < (entryFor s mId).lockedYesTokens
    · rw [if_pos hc] at h
      have hh := shortYES_userId h
      exact ⟨hh.1, hh.2⟩
    · rw [if_neg hc] at h
      exact shortYES_userId h

lemma deliverNO_userId {b s : UserBalance} {mId : String} {q : ℚ}
    {b' s' : UserBalance} (h : deliverNO b s mId q = some (b', s')) :
    b'.userId = b.userId ∧ s'.userId = s.userId := by
  unfold deliverNO at h
  by_cases h1 : q ≤ (entryFor s mId).lockedNoTokens
  · rw [if_pos h1] at h
    simp only [Option.some.injEq, Prod.mk.injEq] at h
    obtain ⟨hb, hs⟩ := h
    subst hb hs
    exact ⟨rfl, rfl⟩
  · rw [if_neg h1] at h
    by_cases hc : 0 < (entryFor s mId).lockedNoTokens
    · rw [if_pos hc] at h
      have hh := shortNO_userId h
      exact ⟨hh.1, hh.2⟩
    · rw [if_neg hc] at h
      exact shortNO_userId h

lemma executeTrade_userId {b s : UserBalance} {mId : String} {tt : TokenType}
    {p q blp : ℚ} {b' s' : UserBalance}
    (h : executeTrade b s mId tt p q blp = some (b', s')) :
    b'.userId = b.userId ∧ s'.userId = s.userId := by
  cases tt with
  | YES =>
      simp only [executeTrade] at h
      split at h
      · simp at h
      · rename_i bb sb heq
        simp only [Option.some.injEq, Prod.mk.injEq] at h
        obtain ⟨hb, hs⟩ := h
        subst hb hs
        have hd := deliverYES_userId heq
        constructor
        · have : ∀ (c : Prop) [Decidable c] (x : ℚ) (u : UserBalance),
              (if c then { u with availableUSD := x } else u).userId = u.userId := by
            intro c _ x u; split <;> rfl
          rw [this, hd.1, ensureMB_userId]
        · rw [hd.2]
          exact ensureMB_userId s mId
  | NO =>
      simp only [executeTrade] at h
      split at h
      · simp at h
      · rename_i bb sb heq
        simp only [Option.some.injEq, Prod.mk.injEq] at h
        obtain ⟨hb, hs⟩ := h
        subst hb hs
        have hd := deliverNO_userId heq
        constructor
        · have : ∀ (c : Prop) [Decidable c] (x : ℚ) (u : UserBalance),
              (if c then { u with availableUSD := x } else u).userId = u.userId := by
            intro c _ x u; split <;> rfl
          rw [this, hd.1, ensureMB_userId]
        · rw [hd.2]
          exact ensureMB_userId s mId

lemma shortYES_WF {b s : UserBalance} {mId : String} {r c : ℚ}
    {b' s' : UserBalance} (h : shortYES b s mId r c = some (b', s'))
    (hb : WFUser b) (hs : WFUser s) : WFUser b' ∧ WFUser s' := by
  unfold shortYES at h
  by_cases hr : 0 < r
  · rw [if_pos hr] at h
    by_cases hc : c < r
    · rw [if_pos hc] at h; exact absurd h (by simp)
    · rw [if_neg hc] at h
      simp only [Option.some.injEq, Prod.mk.injEq] at h
      obtain ⟨h1, h2⟩ := h
      subst h1 h2
      exact ⟨WFUser_withMB _ _ _ (fun _ => rfl) hb,
        WFUser_withMB _ _ _ (fun _ => rfl) hs⟩
  · rw [if_neg hr] at h
    simp only [Option.some.injEq, Prod.mk.injEq] at h
    obtain ⟨h1, h2⟩ := h
    subst h1 h2
    exact ⟨hb, hs⟩

lemma shortNO_WF {b s : UserBalance} {mId : String} {r c : ℚ}
    {b' s' : UserBalance} (h : shortNO b s mId r c = some (b', s'))
    (hb : WFUser b) (hs : WFUser s) : WFUser b' ∧ WFUser s' := by
  unfold shortNO at h
  by_cases hr : 0 < r
  · rw [if_pos hr] at h
    by_cases hc : c < r
    · rw [if_pos hc] at h; exact absurd h (by simp)
    · rw [if_neg hc] at h
      simp only [Option.some.injEq, Prod.mk.injEq] at h
      obtain ⟨h1, h2⟩ := h
      subst h1 h2
      exact ⟨WFUser_withMB _ _ _ (fun _ => rfl) hb,
        WFUser_withMB _ _ _ (fun _ => rfl) hs⟩
  · rw [if_neg hr] at h
    simp only [Option.some.injEq, Prod.mk.injEq] at h
    obtain ⟨h1, h2⟩ := h
    subst h1 h2
    exact ⟨hb, hs⟩

lemma deliverYES_WF {b s : UserBalance} {mId : String} {q : ℚ}
    {b' s' : UserBalance} (h : deliverYES b s mId q = some (b', s'))
    (hb : WFUser b) (hs : WFUser s) : WFUser b' ∧ WFUser s' := by
  unfold deliverYES at h
  by_cases h1 : q ≤ (entryFor s mId).lockedYesTokens
  · rw [if_pos h1] at h
    simp only [Option.some.injEq, Prod.mk.injEq] at h
    obtain ⟨hx, hy⟩ := h
    subst hx hy
    exact ⟨WFUser_withMB _ _ _ (fun _ => rfl) hb,
      WFUser_withMB _ _ _ (fun _ => rfl) hs⟩
  · rw [if_neg h1] at h
    by_cases hc : 0 < (entryFor s mId).lockedYesTokens
    · rw [if_pos hc] at h
      exact shortYES_WF h (WFUser_withMB _ _ _ (fun _ => rfl) hb)
        (WFUser_withMB _ _ _ (fun _ => rfl) hs)
    · rw [if_neg hc] at h
      exact shortYES_WF h hb hs

lemma deliverNO_WF {b s : UserBalance} {mId : String} {q : ℚ}
    {b' s' : UserBalance} (h : deliverNO b s mId q = some (b', s'))
    (hb : WFUser b) (hs : WFUser s) : WFUser b' ∧ WFUser s' := by
  unfold deliverNO at h
  by_cases h1 : q ≤ (entryFor s mId).lockedNoTokens
  · rw [if_pos h1] at h
    simp only [Option.some.injEq, Prod.mk.injEq] at h
    obtain ⟨hx, hy⟩ := h
    subst hx hy
    exact ⟨WFUser_withMB _ _ _ (fun _ => rfl) hb,
      WFUser_withMB _ _ _ (fun _ => rfl) hs⟩
  · rw [if_neg h1] at h
    by_cases hc : 0 < (entryFor s mId).lockedNoTokens
    · rw [if_pos hc] at h
      exact shortNO_WF h (WFUser_withMB _ _ _ (fun _ => rfl) hb)
        (WFUser_withMB _ _ _ (fun _ => rfl) hs)
    · rw [if_neg hc] at h
      exact shortNO_WF h hb hs

lemma WFUser_usd {u : UserBalance} (x : ℚ) (h : WFUser u) :
    WFUser { u with availableUSD := x } := h

lemma WFUser_refundIte {u : UserBalance} (c : Prop) [Decidable c] (x : ℚ)
    (h : WFUser u) : WFUser (if c then { u with availableUSD := x } else u) := by
  split
  · exact h
  · exact h

lemma executeTrade_WF {b s : UserBalance} {mId : String} {tt : TokenType}
    {p q blp : ℚ} {b' s' : UserBalance}
    (h : executeTrade b s mId tt p q blp = some (b', s'))
    (hb : WFUser b) (hs : WFUser s) : WFUser b' ∧ WFUser s' := by
  have hbe : WFUser (ensureMB b mId) := WFUser_ensureMB b mId hb
  have hse : WFUser { ensureMB s mId with availableUSD :=
      (ensureMB s mId).availableUSD + p * q } :=
    WFUser_ensureMB s mId hs
  cases tt with
  | YES =>
      simp only [executeTrade] at h
      split at h
      · simp at h
      · rename_i bb sb heq
        simp only [Option.some.injEq, Prod.mk.injEq] at h
        obtain ⟨hx, hy⟩ := h
        subst hx hy
        have hd := deliverYES_WF heq hbe hse
        exact ⟨WFUser_refundIte _ _ hd.1, hd.2⟩
  | NO =>
      simp only [executeTrade] at h
      split at h
      · simp at h
      · rename_i bb sb heq
        simp only [Option.some.injEq, Prod.mk.injEq] at h
        obtain ⟨hx, hy⟩ := h
        subst hx hy
        have hd := deliverNO_WF heq hbe hse
        exact ⟨WFUser_refundIte _ _ hd.1, hd.2⟩

/-! ## Toolkit: the matching iteration preserves the minted-pair balance -/

/-- Net YES-minus-NO supply of a market over the whole store. -/
def dbDiff (db : DB) (marketId : String) : ℚ :=
  yesSupply db marketId - noSupply db marketId

lemma sum_map_sub (l : List UserBalance) (f g : UserBalance → ℚ) :
    (l.map (fun u => f u - g u)).sum = (l.map f).sum - (l.map g).sum := by
  induction l with
  | nil => simp
  | cons a rest ih => simp [ih]; ring

lemma dbDiff_eq_sum (db : DB) (mId : String) :
    dbDiff db mId = (db.users.map (userDiff mId)).sum := by
  unfold dbDiff yesSupply noSupply userDiff
  rw [sum_map_sub]

lemma dbDiff_putUser2 (db : DB) (bb sb bb' sb' : UserBalance) (mId' : String)
    (hfb : db.users.find? (fun v => v.userId == bb'.userId) = some bb)
    (hfs : db.users.find? (fun v => v.userId == sb'.userId) = some sb)
    (hne : (bb'.userId == sb'.userId) = false)
    (hdiff : userDiff mId' bb' + userDiff mId' sb' =
      userDiff mId' bb + userDiff mId' sb) :
    ((putUser (putUser db.users bb') sb').map (userDiff mId')).sum =
      (db.users.map (userDiff mId')).sum := by
  rw [sum_map_putUser _ _ sb _
    (by rw [find?_putUser_ne _ _ _ hne]; exact hfs)]
  rw [sum_map_putUser _ _ bb _ hfb]
  linarith

lemma matchIter_skip_users {db db' : DB} {taker : Order} {remaining : ℚ}
    (h : matchIter db taker remaining = IterOut.skip db') :
    db'.users = db.users := by
  unfold matchIter at h
  cases hfb : findBestOpposing taker db.orders with
  | none => rw [hfb] at h; simp at h
  | some m =>
      rw [hfb] at h
      simp only at h
      by_cases hav : m.quantity - m.filledQuantity ≤ 0
      · rw [if_pos hav] at h
        simp only [IterOut.skip.injEq] at h
        subst h
        rfl
      · rw [if_neg hav] at h
        split at h <;> simp_all

lemma matchIter_halt_users {db db' : DB} {taker taker' : Order} {remaining : ℚ}
    (h : matchIter db taker remaining = IterOut.halt db' taker') :
    db'.users = db.users := by
  unfold matchIter at h
  cases hfb : findBestOpposing taker db.orders with
  | none => rw [hfb] at h; simp at h
  | some m =>
      rw [hfb] at h
      simp only at h
      by_cases hav : m.quantity - m.filledQuantity ≤ 0
      · rw [if_pos hav] at h; simp at h
      · rw [if_neg hav] at h
        split at h
        · split at h <;> simp_all
        · simp only [IterOut.halt.injEq] at h
          obtain ⟨h1, h2⟩ := h
          subst h1
          rfl

lemma matchIter_next_spec {db db' : DB} {taker taker' : Order}
    {remaining remaining' : ℚ} {fill : Fill}
    (h : matchIter db taker remaining = IterOut.next db' taker' remaining' fill) :
    taker'.userId = taker.userId ∧
    fill.buyerId ≠ fill.sellerId ∧
    (∀ mId', dbDiff db' mId' = dbDiff db mId') ∧
    (WFDB db → WFDB db') := by
  unfold matchIter at h
  cases hfb : findBestOpposing taker db.orders with
  | none => rw [hfb] at h; simp at h
  | some m =>
      have hmne : m.userId ≠ taker.userId :=
        isCandidate_userId (findBestOpposing_mem hfb).2
      rw [hfb] at h
      simp only at h
      by_cases hav : m.quantity - m.filledQuantity ≤ 0
      · rw [if_pos hav] at h; simp at h
      · rw [if_neg hav] at h
        split at h
        · rename_i buyerBal sellerBal hbb hsb
          -- the buyer/seller identities computed by the engine
          have hbuid : buyerBal.userId =
              (if (taker.side == Side.BUY) = true then taker.userId else m.userId) := by
            unfold getUser at hbb
            simpa using List.find?_some hbb
          have hsuid : sellerBal.userId =
              (if (taker.side == Side.SELL) = true then taker.userId else m.userId) := by
            unfold getUser at hsb
            simpa using List.find?_some hsb
          have hbmem : buyerBal ∈ db.users := by
            unfold getUser at hbb
            exact List.mem_of_find?_eq_some hbb
          have hsmem : sellerBal ∈ db.users := by
            unfold getUser at hsb
            exact List.mem_of_find?_eq_some hsb
          have hbsne : buyerBal.userId ≠ sellerBal.userId := by
            rw [hbuid, hsuid]
            cases hside : taker.side <;> simp [hside] <;>
              first
                | exact fun hx => hmne hx.symm
                | exact hmne
          cases hex : executeTrade buyerBal sellerBal taker.marketId
              taker.tokenType m.price (min remaining (m.quantity - m.filledQuantity))
              (if (taker.side == Side.BUY) = true then taker.price else m.price) with
          | none =>
              rw [hex] at h
              simp only [IterOut.next.injEq] at h
              obtain ⟨h1, h2, h3, h4⟩ := h
              subst h1 h2 h3 h4
              refine ⟨rfl, ?_, fun mId' => rfl, fun hwf => hwf⟩
              show (if (taker.side == Side.BUY) = true then taker.userId else m.userId)
                ≠ (if (taker.side == Side.SELL) = true then taker.userId else m.userId)
              cases hside : taker.side <;> simp [hside] <;>
                first
                  | exact fun hx => hmne hx.symm
                  | exact hmne
          | some bs =>
              obtain ⟨bb', sb'⟩ := bs
              rw [hex] at h
              simp only [IterOut.next.injEq] at h
              obtain ⟨h1, h2, h3, h4⟩ := h
              subst h1 h2 h3 h4
              have hids := executeTrade_userId hex
              refine ⟨rfl, ?_, ?_, ?_⟩
              · show (if (taker.side == Side.BUY) = true then taker.userId else m.userId)
                  ≠ (if (taker.side == Side.SELL) = true then taker.userId else m.userId)
                cases hside : taker.side <;> simp [hside] <;>
                  first
                    | exact fun hx => hmne hx.symm
                    | exact hmne
              · intro mId'
                rw [dbDiff_eq_sum, dbDiff_eq_sum]
                show ((putUser (putUser db.users bb') sb').map (userDiff mId')).sum
                  = (db.users.map (userDiff mId')).sum
                refine dbDiff_putUser2 db buyerBal sellerBal bb' sb' mId' ?_ ?_ ?_ ?_
                · rw [hids.1]
                  rw [show (fun v => v.userId == buyerBal.userId) =
                    (fun (v : UserBalance) => v.userId ==
                      (if (taker.side == Side.BUY) = true then taker.userId
                        else m.userId)) from by rw [hbuid]]
                  exact hbb
                · rw [hids.2]
                  rw [show (fun v => v.userId == sellerBal.userId) =
                    (fun (v : UserBalance) => v.userId ==
                      (if (taker.side == Side.SELL) = true then taker.userId
                        else m.userId)) from by rw [hsuid]]
                  exact hsb
                · rw [hids.1, hids.2]
                  simpa using hbsne
                · exact executeTrade_diff _ _ _ _ _ _ _ bb' sb' mId' hex
              · intro hwf
                intro u hu
                rcases mem_putUser hu with hu1 | hu1
                · rcases mem_putUser hu1 with hu2 | hu2
                  · exact hwf u hu2
                  · subst hu2
                    exact (executeTrade_WF hex (hwf _ hbmem) (hwf _ hsmem)).1
                · subst hu1
                  exact (executeTrade_WF hex (hwf _ hbmem) (hwf _ hsmem)).2
        · simp_all

/-! ## Toolkit: the matching loop produces no self-match -/

lemma matchLoop_fills_ne (fuel : ℕ) :
    ∀ (db : DB) (taker : Order) (remaining : ℚ) (fills : List Fill),
      (∀ f ∈ fills, f.buyerId ≠ f.sellerId) →
      ∀ f ∈ (matchLoop fuel db taker remaining fills).2.2.2,
        f.buyerId ≠ f.sellerId := by
  induction fuel with
  | zero => intro db taker remaining fills hf; exact hf
  | succ n ih =>
      intro db taker remaining fills hf
      simp only [matchLoop]
      split
      · cases hit : matchIter db taker remaining with
        | exit => exact hf
        | skip db' => exact ih db' taker remaining fills hf
        | halt db' taker' => exact hf
        | next db' taker' remaining' fill =>
            refine ih db' taker' remaining' (fills ++ [fill]) ?_
            intro f hfm
            rcases List.mem_append.mp hfm with hm | hm
            · exact hf f hm
            · rw [List.mem_singleton.mp hm]
              exact (matchIter_next_spec hit).2.1
      · exact hf

lemma matchOrders_fills (fuel : ℕ) (db : DB) (taker : Order) :
    (matchOrders fuel db taker).2.2 =
      (matchLoop fuel db taker (taker.quantity - taker.filledQuantity)
        []).2.2.2 := by
  unfold matchOrders
  dsimp only
  split <;> rfl

lemma findBestOpposing_none {taker : Order} {orders : List Order}
    (h : orders.filter (isCandidate taker) = []) :
    findBestOpposing taker orders = none := by
  unfold findBestOpposing
  rw [h]
  rfl

lemma matchIter_exit_of {db : DB} {taker : Order} (remaining : ℚ)
    (h : findBestOpposing taker db.orders = none) :
    matchIter db taker remaining = IterOut.exit := by
  unfold matchIter
  rw [h]

lemma matchLoop_noCandidate (fuel : ℕ) (db : DB) (taker : Order)
    (remaining : ℚ) (fills : List Fill)
    (h : findBestOpposing taker db.orders = none) :
    matchLoop fuel db taker remaining fills = (db, taker, remaining, fills) := by
  cases fuel with
  | zero => rfl
  | succ n =>
      simp only [matchLoop]
      split
      · rw [matchIter_exit_of remaining h]
      · rfl

lemma matchOrders_noCandidate (fuel : ℕ) (db : DB) (taker : Order)
    (hfb : findBestOpposing taker db.orders = none)
    (hstat : taker.status = OrderStatus.OPEN)
    (hfq : taker.filledQuantity = 0) (hpos : 0 < taker.quantity) :
    matchOrders fuel db taker = (saveOrder db taker, taker, []) := by
  have hloop := matchLoop_noCandidate fuel db taker
      (taker.quantity - taker.filledQuantity) [] hfb
  have htk : { taker with status :=
      (if 0 < taker.filledQuantity then OrderStatus.PARTIAL
        else OrderStatus.OPEN) } = taker := by
    rw [hfq, if_neg (lt_irrefl 0)]
    cases taker
    simp_all
  unfold matchOrders
  simp only [hloop]
  rw [if_pos ⟨by rw [hfq]; simpa using hpos, by rw [hstat]; nofun⟩]
  rw [htk]

/-! ## Toolkit: field-level specification of token delivery -/

lemma deliverYES_spec {b s : UserBalance} {mId : String} {q : ℚ}
    {b' s' : UserBalance} {mb ms : MarketBalance}
    (hbm : findMB b mId = some mb) (hsm : findMB s mId = some ms)
    (hq : 0 < q) (hL : 0 ≤ ms.lockedYesTokens)
    (h : deliverYES b s mId q = some (b', s')) :
    b'.availableUSD = b.availableUSD ∧
    s'.availableUSD = s.availableUSD ∧
    entryFor b' mId = { mb with yesTokens := mb.yesTokens + q } ∧
    entryFor s' mId =
      { ms with
        lockedYesTokens := ms.lockedYesTokens - min q ms.lockedYesTokens,
        noTokens := ms.noTokens + (q - min q ms.lockedYesTokens) } ∧
    (0 < q - min q ms.lockedYesTokens →
      q - min q ms.lockedYesTokens ≤ ms.lockedCollateralYes) := by
  have hes : entryFor s mId = ms := by unfold entryFor; rw [hsm]; rfl
  unfold deliverYES at h
  rw [hes] at h
  by_cases h1 : q ≤ ms.lockedYesTokens
  · rw [if_pos h1] at h
    have hmin : min q ms.lockedYesTokens = q := min_eq_left h1
    simp only [Option.some.injEq, Prod.mk.injEq] at h
    obtain ⟨hb', hs'⟩ := h
    subst hb' hs'
    refine ⟨rfl, rfl, ?_, ?_, ?_⟩
    · refine entryFor_withMB _ _ _ _ hbm ?_
      exact fun x => rfl
    · rw [hmin]
      refine (entryFor_withMB _ _ _ _ hsm ?_).trans ?_
      · exact fun x => rfl
      · cases ms
        simp
    · intro h0
      rw [hmin] at h0
      linarith
  · rw [if_neg h1] at h
    have hlt : ms.lockedYesTokens < q := not_le.mp h1
    have hmin : min q ms.lockedYesTokens = ms.lockedYesTokens :=
      min_eq_right (le_of_lt hlt)
    by_cases h2 : 0 < ms.lockedYesTokens
    · rw [if_pos h2] at h
      unfold shortYES at h
      rw [hmin] at h
      rw [if_pos (by linarith : (0:ℚ) < q - ms.lockedYesTokens)] at h
      split at h
      · exact absurd h (by simp)
      · rename_i hcov
        simp only [Option.some.injEq, Prod.mk.injEq] at h
        obtain ⟨hb', hs'⟩ := h
        subst hb' hs'
        refine ⟨rfl, rfl, ?_, ?_, ?_⟩
        · refine (entryFor_withMB _ _ _ _
              (findMB_withMB _ _ _ _ hbm ?_) ?_).trans ?_
          · exact fun x => rfl
          · exact fun x => rfl
          · cases mb
            simp
        · rw [hmin]
          refine (entryFor_withMB _ _ _ _
              (findMB_withMB _ _ _ _ hsm ?_) ?_).trans ?_
          · exact fun x => rfl
          · exact fun x => rfl
          · cases ms
            simp
        · intro h0
          rw [hmin] at h0 ⊢
          linarith [not_lt.mp hcov]
    · rw [if_neg h2] at h
      have hL0 : ms.lockedYesTokens = 0 := le_antisymm (not_lt.mp h2) hL
      unfold shortYES at h
      rw [if_pos hq] at h
      split at h
      · exact absurd h (by simp)
      · rename_i hcov
        simp only [Option.some.injEq, Prod.mk.injEq] at h
        obtain ⟨hb', hs'⟩ := h
        subst hb' hs'
        have hmin0 : min q ms.lockedYesTokens = 0 := by
          rw [hL0]
          exact min_eq_right (le_of_lt hq)
        refine ⟨rfl, rfl, ?_, ?_, ?_⟩
        · refine entryFor_withMB _ _ _ _ hbm ?_
          exact fun x => rfl
        · rw [hmin0]
          refine (entryFor_withMB _ _ _ _ hsm ?_).trans ?_
          · exact fun x => rfl
          · cases ms
            simp
        · intro h0
          rw [hmin0]
          simp only [sub_zero]
          linarith [not_lt.mp hcov]

lemma deliverNO_spec {b s : UserBalance} {mId : String} {q : ℚ}
    {b' s' : UserBalance} {mb ms : MarketBalance}
    (hbm : findMB b mId = some mb) (hsm : findMB s mId = some ms)
    (hq : 0 < q) (hL : 0 ≤ ms.lockedNoTokens)
    (h : deliverNO b s mId q = some (b', s')) :
    b'.availableUSD = b.availableUSD ∧
    s'.availableUSD = s.availableUSD ∧
    entryFor b' mId = { mb with noTokens := mb.noTokens + q } ∧
    entryFor s' mId =
      { ms with
        lockedNoTokens := ms.lockedNoTokens - min q ms.lockedNoTokens,
        yesTokens := ms.yesTokens + (q - min q ms.lockedNoTokens) } ∧
    (0 < q - min q ms.lockedNoTokens →
      q - min q ms.lockedNoTokens ≤ ms.lockedCollateralNo) := by
  have hes : entryFor s mId = ms := by unfold entryFor; rw [hsm]; rfl
  unfold deliverNO at h
  rw [hes] at h
  by_cases h1 : q ≤ ms.lockedNoTokens
  · rw [if_pos h1] at h
    have hmin : min q ms.lockedNoTokens = q := min_eq_left h1
    simp only [Option.some.injEq, Prod.mk.injEq] at h
    obtain ⟨hb', hs'⟩ := h
    subst hb' hs'
    refine ⟨rfl, rfl, ?_, ?_, ?_⟩
    · refine entryFor_withMB _ _ _ _ hbm ?_
      exact fun x => rfl
    · rw [hmin]
      refine (entryFor_withMB _ _ _ _ hsm ?_).trans ?_
      · exact fun x => rfl
      · cases ms
        simp
    · intro h0
      rw [hmin] at h0
      linarith
  · rw [if_neg h1] at h
    have hlt : ms.lockedNoTokens < q := not_le.mp h1
    have hmin : min q ms.lockedNoTokens = ms.lockedNoTokens :=
      min_eq_right (le_of_lt hlt)
    by_cases h2 : 0 < ms.lockedNoTokens
    · rw [if_pos h2] at h
      unfold shortNO at h
      rw [hmin] at h
      rw [if_pos (by linarith : (0:ℚ) < q - ms.lockedNoTokens)] at h
      split at h
      · exact absurd h (by simp)
      · rename_i hcov
        simp only [Option.some.injEq, Prod.mk.injEq] at h
        obtain ⟨hb', hs'⟩ := h
        subst hb' hs'
        refine ⟨rfl, rfl, ?_, ?_, ?_⟩
        · refine (entryFor_withMB _ _ _ _
              (findMB_withMB _ _ _ _ hbm ?_) ?_).trans ?_
          · exact fun x => rfl
          · exact fun x => rfl
          · cases mb
            simp
        · rw [hmin]
          refine (entryFor_withMB _ _ _ _
              (findMB_withMB _ _ _ _ hsm ?_) ?_).trans ?_
          · exact fun x => rfl
          · exact fun x => rfl
          · cases ms
            simp
        · intro h0
          rw [hmin] at h0 ⊢
          linarith [not_lt.mp hcov]
    · rw [if_neg h2] at h
      have hL0 : ms.lockedNoTokens = 0 := le_antisymm (not_lt.mp h2) hL
      unfold shortNO at h
      rw [if_pos hq] at h
      split at h
      · exact absurd h (by simp)
      · rename_i hcov
        simp only [Option.some.injEq, Prod.mk.injEq] at h
        obtain ⟨hb', hs'⟩ := h
        subst hb' hs'
        have hmin0 : min q ms.lockedNoTokens = 0 := by
          rw [hL0]
          exact min_eq_right (le_of_lt hq)
        refine ⟨rfl, rfl, ?_, ?_, ?_⟩
        · refine entryFor_withMB _ _ _ _ hbm ?_
          exact fun x => rfl
        · rw [hmin0]
          refine (entryFor_withMB _ _ _ _ hsm ?_).trans ?_
          · exact fun x => rfl
          · cases ms
            simp
        · intro h0
          rw [hmin0]
          simp only [sub_zero]
          linarith [not_lt.mp hcov]

lemma entryFor_usd (u : UserBalance) (mId : String) (x : ℚ) :
    entryFor { u with availableUSD := x } mId = entryFor u mId := rfl

/-! ## Toolkit: field-level specification of admission asset locking -/

lemma lockAssets_sellYES_err {ub : UserBalance} {req : OrderReq}
    {m : MarketBalance}
    (hside : req.side = Side.SELL) (htt : req.tokenType = TokenType.YES)
    (hm : findMB ub req.marketId = some m)
    (hlt : m.yesTokens < req.quantity)
    (husd : ub.availableUSD < req.quantity - m.yesTokens) :
    lockAssets ub req = Except.error OrderError.insufficientFunds := by
  have hem : entryFor ub req.marketId = m := by
    unfold entryFor
    rw [hm]
    rfl
  rw [lockAssets.eq_def, hside]
  dsimp only
  rw [htt]
  dsimp only
  rw [hem, if_neg (not_le.mpr hlt), if_pos husd]

lemma lockAssets_sellYES_ok {ub : UserBalance} {req : OrderReq}
    {m : MarketBalance}
    (hside : req.side = Side.SELL) (htt : req.tokenType = TokenType.YES)
    (hm : findMB ub req.marketId = some m) (h0 : 0 ≤ m.yesTokens)
    (hok : req.quantity ≤ m.yesTokens ∨
      req.quantity - m.yesTokens ≤ ub.availableUSD) :
    ∃ ub', lockAssets ub req = Except.ok ub' ∧
      ub'.userId = ub.userId ∧
      ub'.availableUSD =
        ub.availableUSD - max (req.quantity - m.yesTokens) 0 ∧
      entryFor ub' req.marketId =
        { m with
          yesTokens := m.yesTokens - min req.quantity m.yesTokens,
          lockedYesTokens := m.lockedYesTokens + min req.quantity m.yesTokens,
          lockedCollateralYes := m.lockedCollateralYes +
            max (req.quantity - m.yesTokens) 0 } := by
  have hem : entryFor ub req.marketId = m := by
    unfold entryFor
    rw [hm]
    rfl
  by_cases hqo : req.quantity ≤ m.yesTokens
  · have hmin : min req.quantity m.yesTokens = req.quantity := min_eq_left hqo
    have hmax : max (req.quantity - m.yesTokens) 0 = 0 :=
      max_eq_right (by linarith)
    have heq : lockAssets ub req = Except.ok (withMB ub req.marketId
        (fun mm => { mm with
          yesTokens := mm.yesTokens - req.quantity,
          lockedYesTokens := mm.lockedYesTokens + req.quantity })) := by
      rw [lockAssets.eq_def, hside]
      dsimp only
      rw [htt]
      dsimp only
      rw [hem, if_pos hqo]
    refine ⟨_, heq, rfl, ?_, ?_⟩
    · rw [hmax, sub_zero]
      rfl
    · rw [hmin, hmax]
      refine (entryFor_withMB _ _ _ _ hm ?_).trans ?_
      · exact fun x => rfl
      · cases m
        simp
  · have hlt : m.yesTokens < req.quantity := not_le.mp hqo
    have husd : req.quantity - m.yesTokens ≤ ub.availableUSD :=
      hok.resolve_left hqo
    have hmin : min req.quantity m.yesTokens = m.yesTokens :=
      min_eq_right (le_of_lt hlt)
    have hmax : max (req.quantity - m.yesTokens) 0 =
        req.quantity - m.yesTokens := max_eq_left (by linarith)
    by_cases h0' : 0 < m.yesTokens
    · have heq : lockAssets ub req = Except.ok (withMB
          { withMB ub req.marketId (fun mm => { mm with
              yesTokens := mm.yesTokens - m.yesTokens,
              lockedYesTokens := mm.lockedYesTokens + m.yesTokens }) with
            availableUSD := (withMB ub req.marketId (fun mm => { mm with
              yesTokens := mm.yesTokens - m.yesTokens,
              lockedYesTokens := mm.lockedYesTokens + m.yesTokens })).availableUSD
              - (req.quantity - m.yesTokens) }
          req.marketId (fun mm => { mm with
            lockedCollateralYes :=
              mm.lockedCollateralYes + (req.quantity - m.yesTokens) })) := by
        rw [lockAssets.eq_def, hside]
        dsimp only
        rw [htt]
        dsimp only
        rw [hem, if_neg hqo, if_neg (not_lt.mpr husd), if_pos h0']
      refine ⟨_, heq, rfl, ?_, ?_⟩
      · rw [hmax]
        rfl
      · rw [hmin, hmax]
        refine (entryFor_withMB _ _ _ _
            ((findMB_usd _ _ _).trans (findMB_withMB _ _ _ _ hm ?_)) ?_).trans ?_
        · exact fun x => rfl
        · exact fun x => rfl
        · cases m
          simp
    · have h00 : m.yesTokens = 0 := le_antisymm (not_lt.mp h0') h0
      have heq : lockAssets ub req = Except.ok (withMB
          { ub with availableUSD :=
              ub.availableUSD - (req.quantity - m.yesTokens) }
          req.marketId (fun mm => { mm with
            lockedCollateralYes :=
              mm.lockedCollateralYes + (req.quantity - m.yesTokens) })) := by
        rw [lockAssets.eq_def, hside]
        dsimp only
        rw [htt]
        dsimp only
        rw [hem, if_neg hqo, if_neg (not_lt.mpr husd), if_neg h0']
      refine ⟨_, heq, rfl, ?_, ?_⟩
      · rw [hmax]
        rfl
      · rw [hmin, hmax]
        refine (entryFor_withMB _ _ _ _
            ((findMB_usd _ _ _).trans hm) ?_).trans ?_
        · exact fun x => rfl
        · cases m
          simp_all

lemma lockAssets_sellNO_err {ub : UserBalance} {req : OrderReq}
    {m : MarketBalance}
    (hside : req.side = Side.SELL) (htt : req.tokenType = TokenType.NO)
    (hm : findMB ub req.marketId = some m)
    (hlt : m.noTokens < req.quantity)
    (husd : ub.availableUSD < req.quantity - m.noTokens) :
    lockAssets ub req = Except.error OrderError.insufficientFunds := by
  have hem : entryFor ub req.marketId = m := by
    unfold entryFor
    rw [hm]
    rfl
  rw [lockAssets.eq_def, hside]
  dsimp only
  rw [htt]
  dsimp only
  rw [hem, if_neg (not_le.mpr hlt), if_pos husd]

lemma lockAssets_sellNO_ok {ub : UserBalance} {req : OrderReq}
    {m : MarketBalance}
    (hside : req.side = Side.SELL) (htt : req.tokenType = TokenType.NO)
    (hm : findMB ub req.marketId = some m) (h0 : 0 ≤ m.noTokens)
    (hok : req.quantity ≤ m.noTokens ∨
      req.quantity - m.noTokens ≤ ub.availableUSD) :
    ∃ ub', lockAssets ub req = Except.ok ub' ∧
      ub'.userId = ub.userId ∧
      ub'.availableUSD =
        ub.availableUSD - max (req.quantity - m.noTokens) 0 ∧
      entryFor ub' req.marketId =
        { m with
          noTokens := m.noTokens - min req.quantity m.noTokens,
          lockedNoTokens := m.lockedNoTokens + min req.quantity m.noTokens,
          lockedCollateralNo := m.lockedCollateralNo +
            max (req.quantity - m.noTokens) 0 } := by
  have hem : entryFor ub req.marketId = m := by
    unfold entryFor
    rw [hm]
    rfl
  by_cases hqo : req.quantity ≤ m.noTokens
  · have hmin : min req.quantity m.noTokens = req.quantity := min_eq_left hqo
    have hmax : max (req.quantity - m.noTokens) 0 = 0 :=
      max_eq_right (by linarith)
    have heq : lockAssets ub req = Except.ok (withMB ub req.marketId
        (fun mm => { mm with
          noTokens := mm.noTokens - req.quantity,
          lockedNoTokens := mm.lockedNoTokens + req.quantity })) := by
      rw [lockAssets.eq_def, hside]
      dsimp only
      rw [htt]
      dsimp only
      rw [hem, if_pos hqo]
    refine ⟨_, heq, rfl, ?_, ?_⟩
    · rw [hmax, sub_zero]
      rfl
    · rw [hmin, hmax]
      refine (entryFor_withMB _ _ _ _ hm ?_).trans ?_
      · exact fun x => rfl
      · cases m
        simp
  · have hlt : m.noTokens < req.quantity := not_le.mp hqo
    have husd : req.quantity - m.noTokens ≤ ub.availableUSD :=
      hok.resolve_left hqo
    have hmin : min req.quantity m.noTokens = m.noTokens :=
      min_eq_right (le_of_lt hlt)
    have hmax : max (req.quantity - m.noTokens) 0 =
        req.quantity - m.noTokens := max_eq_left (by linarith)
    by_cases h0' : 0 < m.noTokens
    · have heq : lockAssets ub req = Except.ok (withMB
          { withMB ub req.marketId (fun mm => { mm with
              noTokens := mm.noTokens - m.noTokens,
              lockedNoTokens := mm.lockedNoTokens + m.noTokens }) with
            availableUSD := (withMB ub req.marketId (fun mm => { mm with
              noTokens := mm.noTokens - m.noTokens,
              lockedNoTokens := mm.lockedNoTokens + m.noTokens })).availableUSD
              - (req.quantity - m.noTokens) }
          req.marketId (fun mm => { mm with
            lockedCollateralNo :=
              mm.lockedCollateralNo + (req.quantity - m.noTokens) })) := by
        rw [lockAssets.eq_def, hside]
        dsimp only
        rw [htt]
        dsimp only
        rw [hem, if_neg hqo, if_neg (not_lt.mpr husd), if_pos h0']
      refine ⟨_, heq, rfl, ?_, ?_⟩
      · rw [hmax]
        rfl
      · rw [hmin, hmax]
        refine (entryFor_withMB _ _ _ _
            ((findMB_usd _ _ _).trans (findMB_withMB _ _ _ _ hm ?_)) ?_).trans ?_
        · exact fun x => rfl
        · exact fun x => rfl
        · cases m
          simp
    · have h00 : m.noTokens = 0 := le_antisymm (not_lt.mp h0') h0
      have heq : lockAssets ub req = Except.ok (withMB
          { ub with availableUSD :=
              ub.availableUSD - (req.quantity - m.noTokens) }
          req.marketId (fun mm => { mm with
            lockedCollateralNo :=
              mm.lockedCollateralNo + (req.quantity - m.noTokens) })) := by
        rw [lockAssets.eq_def, hside]
        dsimp only
        rw [htt]
        dsimp only
        rw [hem, if_neg hqo, if_neg (not_lt.mpr husd), if_neg h0']
      refine ⟨_, heq, rfl, ?_, ?_⟩
      · rw [hmax]
        rfl
      · rw [hmin, hmax]
        refine (entryFor_withMB _ _ _ _
            ((findMB_usd _ _ _).trans hm) ?_).trans ?_
        · exact fun x => rfl
        · cases m
          simp_all

lemma admitOrder_lockError {db : DB} {req : OrderReq} {ub0 : UserBalance}
    {e : OrderError}
    (hu : getUser db (jsToLower req.userId) = some ub0)
    (hp : ¬(req.price < 0 ∨ 1 < req.price)) (hq : ¬req.quantity ≤ 0)
    (hl : lockAssets (ensureMB ub0 req.marketId) req = Except.error e) :
    admitOrder db req = Except.error e := by
  rw [admitOrder.eq_def]
  dsimp only
  rw [if_neg hp, if_neg hq, hu]
  dsimp only
  rw [hl]

/-! ## Toolkit: admission preserves the minted-pair balance -/

lemma userDiff_withMB_inv (u : UserBalance) (mId mId' : String)
    (f : MarketBalance → MarketBalance)
    (hyes : ∀ x, mbYes mId' (f x) = mbYes mId' x)
    (hno : ∀ x, mbNo mId' (f x) = mbNo mId' x) :
    userDiff mId' (withMB u mId f) = userDiff mId' u := by
  unfold userDiff userYes userNo withMB
  simp only [sum_map_updMB]
  cases hfm : u.markets.find? (fun m => m.marketId == mId) with
  | none => ring
  | some m =>
      simp only
      rw [hyes m, hno m]
      ring

lemma lockAssets_userId {ub : UserBalance} {req : OrderReq} {ub' : UserBalance}
    (h : lockAssets ub req = Except.ok ub') : ub'.userId = ub.userId := by
  unfold lockAssets at h
  split at h
  · simp only at h
    split at h
    · simp at h
    · simp only [Except.ok.injEq] at h
      subst h
      rfl
  · split at h
    · simp only at h
      split at h
      · simp only [Except.ok.injEq] at h
        subst h
        rfl
      · split at h
        · simp at h
        · simp only [Except.ok.injEq] at h
          subst h
          split <;> rfl
    · simp only at h
      split at h
      · simp only [Except.ok.injEq] at h
        subst h
        rfl
      · split at h
        · simp at h
        · simp only [Except.ok.injEq] at h
          subst h
          split <;> rfl

lemma lockAssets_WF {ub : UserBalance} {req : OrderReq} {ub' : UserBalance}
    (h : lockAssets ub req = Except.ok ub') (hwf : WFUser ub) : WFUser ub' := by
  unfold lockAssets at h
  split at h
  · simp only at h
    split at h
    · simp at h
    · simp only [Except.ok.injEq] at h
      subst h
      exact hwf
  · split at h
    · simp only at h
      split at h
      · simp only [Except.ok.injEq] at h
        subst h
        exact WFUser_withMB _ _ _ (fun _ => rfl) hwf
      · split at h
        · simp at h
        · simp only [Except.ok.injEq] at h
          subst h
          refine WFUser_withMB _ _ _ (fun _ => rfl) ?_
          split
          · exact WFUser_withMB _ _ _ (fun _ => rfl) hwf
          · exact hwf
    · simp only at h
      split at h
      · simp only [Except.ok.injEq] at h
        subst h
        exact WFUser_withMB _ _ _ (fun _ => rfl) hwf
      · split at h
        · simp at h
        · simp only [Except.ok.injEq] at h
          subst h
          refine WFUser_withMB _ _ _ (fun _ => rfl) ?_
          split
          · exact WFUser_withMB _ _ _ (fun _ => rfl) hwf
          · exact hwf

lemma lockAssets_diff (mId' : String) {ub : UserBalance} {req : OrderReq}
    {ub' : UserBalance} (h : lockAssets ub req = Except.ok ub') :
    userDiff mId' ub' = userDiff mId' ub := by
  unfold lockAssets at h
  split at h
  · simp only at h
    split at h
    · simp at h
    · simp only [Except.ok.injEq] at h
      subst h
      rfl
  · split at h
    · simp only at h
      split at h
      · simp only [Except.ok.injEq] at h
        subst h
        refine userDiff_withMB_inv _ _ _ _ ?_ ?_
        · intro x; unfold mbYes; simp only; split <;> ring
        · intro x; rfl
      · split at h
        · simp at h
        · simp only [Except.ok.injEq] at h
          subst h
          refine Eq.trans (userDiff_withMB_inv _ _ _ _ ?_ ?_) ?_
          · intro x; rfl
          · intro x; rfl
          · split
            · refine userDiff_withMB_inv _ _ _ _ ?_ ?_
              · intro x; unfold mbYes; simp only; split <;> ring
              · intro x; rfl
            · rfl
    · simp only at h
      split at h
      · simp only [Except.ok.injEq] at h
        subst h
        refine userDiff_withMB_inv _ _ _ _ ?_ ?_
        · intro x; rfl
        · intro x; unfold mbNo; simp only; split <;> ring
      · split at h
        · simp at h
        · simp only [Except.ok.injEq] at h
          subst h
          refine Eq.trans (userDiff_withMB_inv _ _ _ _ ?_ ?_) ?_
          · intro x; rfl
          · intro x; rfl
          · split
            · refine userDiff_withMB_inv _ _ _ _ ?_ ?_
              · intro x; rfl
              · intro x; unfold mbNo; simp only; split <;> ring
            · rfl

lemma admitOrder_preserve {db : DB} {req : OrderReq} {db' : DB} {o : Order}
    (h : admitOrder db req = Except.ok (db', o)) :
    (∀ mId', dbDiff db' mId' = dbDiff db mId') ∧ (WFDB db → WFDB db') := by
  unfold admitOrder at h
  split at h
  · simp at h
  · split at h
    · simp at h
    · simp only at h
      split at h
      · simp at h
      · rename_i ub hub
        split at h
        · simp at h
        · rename_i ub1 hlock
          simp only [Except.ok.injEq, Prod.mk.injEq] at h
          obtain ⟨hdb, ho⟩ := h
          subst hdb
          have huid : ub.userId = jsToLower req.userId := by
            unfold getUser at hub
            simpa using List.find?_some hub
          have hu1id : ub1.userId = jsToLower req.userId := by
            rw [lockAssets_userId hlock, ensureMB_userId, huid]
          have hfind : db.users.find? (fun v => v.userId == ub1.userId)
              = some ub := by
            rw [show (fun (v : UserBalance) => v.userId == ub1.userId)
              = (fun (v : UserBalance) => v.userId == jsToLower req.userId) from
              by rw [hu1id]]
            exact hub
          constructor
          · intro mId'
            rw [dbDiff_eq_sum, dbDiff_eq_sum]
            show ((putUser db.users ub1).map (userDiff mId')).sum
              = (db.users.map (userDiff mId')).sum
            rw [sum_map_putUser _ _ ub _ hfind]
            rw [lockAssets_diff mId' hlock, userDiff_ensureMB]
            ring
          · intro hwf u hu
            rcases mem_putUser hu with hu1 | hu1
            · exact hwf u hu1
            · subst hu1
              exact lockAssets_WF hlock (WFUser_ensureMB _ _
                (hwf ub (List.mem_of_find?_eq_some hub)))

/-! ## Toolkit: settlement zeroes positions and preserves well-formedness -/

lemma sum_map_markets_entry (g : MarketBalance → ℚ) (mId : String)
    (hg : ∀ m, (m.marketId == mId) = false → g m = 0) :
    ∀ l : List MarketBalance, (l.map MarketBalance.marketId).Nodup →
      (l.map g).sum =
        (match l.find? (fun m => m.marketId == mId) with
         | some m => g m
         | none => 0) := by
  intro l
  induction l with
  | nil => intro _; simp
  | cons a rest ih =>
      intro hnd
      have hnd' : (rest.map MarketBalance.marketId).Nodup :=
        (List.nodup_cons.mp hnd).2
      have hna : a.marketId ∉ rest.map MarketBalance.marketId :=
        (List.nodup_cons.mp hnd).1
      cases ha : (a.marketId == mId) with
      | true =>
          have haid : a.marketId = mId := by simpa using ha
          have hrest : (rest.map g).sum = 0 := by
            apply List.sum_eq_zero
            intro x hx
            rcases List.mem_map.mp hx with ⟨m, hm, hxm⟩
            subst hxm
            apply hg
            cases hmm : (m.marketId == mId) with
            | true =>
                exfalso
                have : m.marketId = mId := by simpa using hmm
                exact hna (by rw [haid, ← this]; exact List.mem_map_of_mem _ hm)
            | false => rfl
          simp [ha, hrest]
      | false =>
          simp only [List.map_cons, List.sum_cons, hg a ha]
          rw [List.find?_cons_of_neg _ (by simp [ha])]
          rw [ih hnd']
          ring

lemma userYes_entry (u : UserBalance) (mId : String) (hwf : WFUser u) :
    userYes mId u = mbYes mId (entryFor u mId) := by
  unfold userYes entryFor findMB
  rw [sum_map_markets_entry (mbYes mId) mId
    (fun m hm => by unfold mbYes; rw [hm]; simp) u.markets hwf]
  cases h : u.markets.find? (fun m => m.marketId == mId) with
  | some m => rfl
  | none => simp [mbYes_empty]

lemma userNo_entry (u : UserBalance) (mId : String) (hwf : WFUser u) :
    userNo mId u = mbNo mId (entryFor u mId) := by
  unfold userNo entryFor findMB
  rw [sum_map_markets_entry (mbNo mId) mId
    (fun m hm => by unfold mbNo; rw [hm]; simp) u.markets hwf]
  cases h : u.markets.find? (fun m => m.marketId == mId) with
  | some m => rfl
  | none => simp [mbNo_empty]

lemma releaseYes_marketId (m : MarketBalance) :
    (releaseYes m).marketId = m.marketId := by
  unfold releaseYes; split <;> rfl

lemma releaseNo_marketId (m : MarketBalance) :
    (releaseNo m).marketId = m.marketId := by
  unfold releaseNo; split <;> rfl

lemma releaseLocks_marketId (m : MarketBalance) :
    (releaseLocks m).marketId = m.marketId := by
  unfold releaseLocks
  rw [releaseNo_marketId, releaseYes_marketId]

lemma resetMB_marketId (m : MarketBalance) :
    (resetMB m).marketId = m.marketId := rfl

lemma mb_zero_of_other {mId mId' : String} (hmm : (mId == mId') = false)
    {x : MarketBalance} (hx : x.marketId = mId) :
    mbYes mId' x = 0 ∧ mbNo mId' x = 0 := by
  unfold mbYes mbNo
  rw [hx, hmm]
  simp

lemma mbYes_resetMB (mId' : String) (m : MarketBalance) :
    mbYes mId' (resetMB m) = 0 := by
  unfold mbYes resetMB
  split <;> simp

lemma mbNo_resetMB (mId' : String) (m : MarketBalance) :
    mbNo mId' (resetMB m) = 0 := by
  unfold mbNo resetMB
  split <;> simp

/-! ## Toolkit: field-level specification of settlement -/

lemma releaseLocks_eq (m : MarketBalance) (hy : 0 ≤ m.lockedYesTokens)
    (hn : 0 ≤ m.lockedNoTokens) :
    releaseLocks m =
      { m with yesTokens := m.yesTokens + m.lockedYesTokens,
               noTokens := m.noTokens + m.lockedNoTokens,
               lockedYesTokens := 0, lockedNoTokens := 0 } := by
  cases m with
  | mk mid y n ly ln cy cn =>
      simp only at hy hn
      unfold releaseLocks releaseNo releaseYes
      dsimp only
      by_cases h1 : 0 < ly
      · rw [if_pos h1]
        dsimp only
        by_cases h2 : 0 < ln
        · rw [if_pos h2]
        · rw [if_neg h2]
          have h2' : ln = 0 := le_antisymm (not_lt.mp h2) hn
          simp [h2']
      · rw [if_neg h1]
        have h1' : ly = 0 := le_antisymm (not_lt.mp h1) hy
        dsimp only
        by_cases h2 : 0 < ln
        · rw [if_pos h2]
          simp [h1']
        · rw [if_neg h2]
          have h2' : ln = 0 := le_antisymm (not_lt.mp h2) hn
          simp [h1', h2']

lemma settleUser_found {ub : UserBalance} {mId : String} {m : MarketBalance}
    (oc : TokenType) (r : ℚ) (hm : findMB ub mId = some m)
    (hy : 0 ≤ m.lockedYesTokens) (hn : 0 ≤ m.lockedNoTokens) :
    (settleUser mId oc r ub).availableUSD =
      ub.availableUSD + r +
        (match oc with
         | TokenType.YES =>
             m.yesTokens + m.lockedYesTokens + m.lockedCollateralNo
         | TokenType.NO =>
             m.noTokens + m.lockedNoTokens + m.lockedCollateralYes) ∧
    entryFor (settleUser mId oc r ub) mId =
      { m with yesTokens := 0, noTokens := 0, lockedYesTokens := 0,
               lockedNoTokens := 0, lockedCollateralYes := 0,
               lockedCollateralNo := 0 } := by
  have hrel := releaseLocks_eq m hy hn
  have hm1 : findMB { ub with availableUSD := ub.availableUSD + r } mId
      = some m := hm
  have h2 : findMB (withMB { ub with availableUSD := ub.availableUSD + r }
      mId releaseLocks) mId = some (releaseLocks m) :=
    findMB_withMB _ _ _ _ hm1 releaseLocks_marketId
  have he2 : entryFor (withMB { ub with availableUSD := ub.availableUSD + r }
      mId releaseLocks) mId = releaseLocks m :=
    entryFor_withMB _ _ _ _ hm1 releaseLocks_marketId
  unfold settleUser
  rw [hm]
  dsimp only
  refine ⟨?_, ?_⟩
  · rw [withMB_usd]
    dsimp only
    rw [withMB_usd, he2, hrel]
    cases oc with
    | YES => dsimp only [payoutOf]
    | NO => dsimp only [payoutOf]
  · refine (entryFor_withMB _ _ _ _ ((findMB_usd _ _ _).trans h2)
        resetMB_marketId).trans ?_
    unfold resetMB
    rw [releaseLocks_marketId]

lemma settleUser_noentry {u : UserBalance} {mId : String} {oc : TokenType}
    {r : ℚ} (h : findMB u mId = none) : settleUser mId oc r u = u := by
  unfold settleUser
  rw [h]

lemma settleUser_WF (mId : String) (oc : TokenType) (r : ℚ)
    (u : UserBalance) (hwf : WFUser u) : WFUser (settleUser mId oc r u) := by
  unfold settleUser
  cases h : findMB u mId with
  | none => exact hwf
  | some m =>
      exact WFUser_withMB _ _ _ resetMB_marketId
        (WFUser_withMB _ _ _ releaseLocks_marketId hwf)

lemma settleUser_diff_other (mId mId' : String) (oc : TokenType) (r : ℚ)
    (u : UserBalance) (hne : mId ≠ mId') :
    userDiff mId' (settleUser mId oc r u) = userDiff mId' u := by
  have hmm : (mId == mId') = false := by simpa using hne
  unfold settleUser
  cases h : findMB u mId with
  | none => rfl
  | some m =>
      simp only
      have hid : m.marketId = mId := findMB_marketId h
      have h1 : findMB { u with availableUSD := u.availableUSD + r } mId
          = some m := h
      have h2 : findMB (withMB { u with availableUSD := u.availableUSD + r }
          mId releaseLocks) mId = some (releaseLocks m) :=
        findMB_withMB _ _ _ _ h1 releaseLocks_marketId
      have hrid : (releaseLocks m).marketId = mId := by
        rw [releaseLocks_marketId]; exact hid
      show userDiff mId' (withMB (withMB { u with availableUSD :=
        u.availableUSD + r } mId releaseLocks) mId resetMB) = userDiff mId' u
      unfold userDiff userYes userNo
      rw [sum_map_withMB _ _ _ _ _ h2, sum_map_withMB _ _ _ _ _ h2,
        sum_map_withMB _ _ _ _ _ h1, sum_map_withMB _ _ _ _ _ h1]
      obtain ⟨hz1, hz2⟩ := mb_zero_of_other hmm hid
      obtain ⟨hr1, hr2⟩ := mb_zero_of_other hmm hrid
      obtain ⟨hf1, hf2⟩ := mb_zero_of_other hmm
        (x := resetMB (releaseLocks m)) (by rw [resetMB_marketId]; exact hrid)
      rw [hz1, hz2, hr1, hr2, hf1, hf2]
      ring

lemma settleUser_diff_self (mId : String) (oc : TokenType) (r : ℚ)
    (u : UserBalance) (hwf : WFUser u) :
    userDiff mId (settleUser mId oc r u) = 0 := by
  unfold settleUser
  cases h : findMB u mId with
  | none =>
      unfold userDiff
      have hy : userYes mId u = 0 := by
        rw [userYes_entry u mId hwf]
        unfold entryFor
        rw [h]
        exact mbYes_empty mId mId
      have hn : userNo mId u = 0 := by
        rw [userNo_entry u mId hwf]
        unfold entryFor
        rw [h]
        exact mbNo_empty mId mId
      rw [hy, hn]
      ring
  | some m =>
      simp only
      have h1 : findMB { u with availableUSD := u.availableUSD + r } mId
          = some m := h
      have h2 : findMB (withMB { u with availableUSD := u.availableUSD + r }
          mId releaseLocks) mId = some (releaseLocks m) :=
        findMB_withMB _ _ _ _ h1 releaseLocks_marketId
      have hwf2 : WFUser (withMB { u with availableUSD := u.availableUSD + r }
          mId releaseLocks) :=
        WFUser_withMB _ _ _ releaseLocks_marketId hwf
      have hwf3 : WFUser (withMB (withMB { u with availableUSD :=
          u.availableUSD + r } mId releaseLocks) mId resetMB) :=
        WFUser_withMB _ _ _ resetMB_marketId hwf2
      have hent : entryFor (withMB (withMB { u with availableUSD :=
          u.availableUSD + r } mId releaseLocks) mId resetMB) mId
          = resetMB (releaseLocks m) :=
        entryFor_withMB _ _ _ _ h2 resetMB_marketId
      -- the payout only changes availableUSD; the final position is the reset
      -- record, whose YES and NO contributions are both zero
      show userDiff mId (withMB (withMB { u with availableUSD :=
        u.availableUSD + r } mId releaseLocks) mId resetMB) = 0
      unfold userDiff
      rw [userYes_entry _ _ hwf3, userNo_entry _ _ hwf3, hent,
        mbYes_resetMB, mbNo_resetMB]
      ring

lemma dbDiff_users_eq {db db' : DB} (h : db'.users = db.users) (mId' : String) :
    dbDiff db' mId' = dbDiff db mId' := by
  unfold dbDiff yesSupply noSupply
  rw [h]

lemma WFDB_users_eq {db db' : DB} (h : db'.users = db.users) (hwf : WFDB db) :
    WFDB db' := by
  unfold WFDB at *
  rw [h]
  exact hwf

lemma settleMarket_preserve {db db' : DB} {mId : String} {oc : TokenType}
    (h : settleMarket db mId oc = some db') (hwf : WFDB db)
    (hpair : ∀ mId', dbDiff db mId' = 0) :
    WFDB db' ∧ (∀ mId', dbDiff db' mId' = 0) := by
  unfold settleMarket at h
  split at h
  · simp at h
  · rename_i mkt hmkt
    split at h
    · simp at h
    · simp only [Option.some.injEq] at h
      subst h
      constructor
      · intro u hu
        rcases List.mem_map.mp hu with ⟨v, hv, huv⟩
        subst huv
        exact settleUser_WF _ _ _ _ (hwf v hv)
      · intro mId'
        rw [dbDiff_eq_sum]
        show ((db.users.map (fun ub => settleUser mId oc
          (refundOf db mId ub.userId) ub)).map (userDiff mId')).sum = 0
        rw [List.map_map]
        by_cases hmm : mId = mId'
        · subst hmm
          apply List.sum_eq_zero
          intro x hx
          rcases List.mem_map.mp hx with ⟨v, hv, hxv⟩
          subst hxv
          exact settleUser_diff_self mId oc _ v (hwf v hv)
        · have : (db.users.map ((userDiff mId') ∘ (fun ub => settleUser mId oc
              (refundOf db mId ub.userId) ub)))
              = db.users.map (userDiff mId') := by
            apply List.map_congr_left
            intro v _
            exact settleUser_diff_other mId mId' oc _ v hmm
          rw [this, ← dbDiff_eq_sum]
          exact hpair mId'

/-! ## The reachable-state invariant: minted YES and NO always pair up -/

lemma reachable_inv {db : DB} (h : Reachable db) :
    WFDB db ∧ ∀ mId', dbDiff db mId' = 0 := by
  induction h with
  | init db hinit =>
      constructor
      · intro u hu
        unfold WFUser
        rw [hinit.1 u hu]
        exact List.nodup_nil
      · intro mId'
        rw [dbDiff_eq_sum]
        apply List.sum_eq_zero
        intro x hx
        rcases List.mem_map.mp hx with ⟨u, hu, hxu⟩
        subst hxu
        unfold userDiff userYes userNo
        rw [hinit.1 u hu]
        simp
  | admission db db' req o _ hstep ih =>
      obtain ⟨hwf, hpair⟩ := ih
      obtain ⟨hd, hw⟩ := admitOrder_preserve hstep
      exact ⟨hw hwf, fun mId' => (hd mId').trans (hpair mId')⟩
  | iterSkip db db' taker remaining _ hstep ih =>
      obtain ⟨hwf, hpair⟩ := ih
      have hu := matchIter_skip_users hstep
      exact ⟨WFDB_users_eq hu hwf,
        fun mId' => (dbDiff_users_eq hu mId').trans (hpair mId')⟩
  | iterHalt db db' taker taker' remaining _ hstep ih =>
      obtain ⟨hwf, hpair⟩ := ih
      have hu := matchIter_halt_users hstep
      exact ⟨WFDB_users_eq hu hwf,
        fun mId' => (dbDiff_users_eq hu mId').trans (hpair mId')⟩
  | iterNext db db' taker taker' remaining remaining' fill _ hstep ih =>
      obtain ⟨hwf, hpair⟩ := ih
      obtain ⟨_, _, hd, hw⟩ := matchIter_next_spec hstep
      exact ⟨hw hwf, fun mId' => (hd mId').trans (hpair mId')⟩
  | statusFix db o _ ih =>
      obtain ⟨hwf, hpair⟩ := ih
      exact ⟨WFDB_users_eq rfl hwf,
        fun mId' => (dbDiff_users_eq rfl mId').trans (hpair mId')⟩
  | settle db db' mId oc _ hstep ih =>
      obtain ⟨hwf, hpair⟩ := ih
      exact settleMarket_preserve hstep hwf hpair

/-! ## Supporting lemmas for the claim theorems -/

lemma lockAssets_error {ub : UserBalance} {req : OrderReq} {e : OrderError}
    (h : lockAssets ub req = Except.error e) :
    e = OrderError.insufficientFunds := by
  unfold lockAssets at h
  split at h
  · simp only at h
    split at h
    · simp only [Except.error.injEq] at h
      exact h.symm
    · simp at h
  · split at h
    · simp only at h
      split at h
      · simp at h
      · split at h
        · simp only [Except.error.injEq] at h
          exact h.symm
        · simp at h
    · simp only at h
      split at h
      · simp at h
      · split at h
        · simp only [Except.error.injEq] at h
          exact h.symm
        · simp at h

lemma reachable_dbC1' : Reachable dbC1' := by
  have hadm : admitOrder dbC1 reqC1 = Except.ok (dbC1', oC1) := by decide
  exact Reachable.admission dbC1 dbC1' reqC1 oC1
    (Reachable.init dbC1 ⟨by decide, rfl, rfl⟩) hadm

lemma verify_sonic (v1 v2 : VerifyReq → Bool) (r : VerifyReq)
    (hc : r.chainId = "sonicBlazeTestnet") (hs : r.signature ≠ "")
    (hw : r.userWallet ≠ "") : verifySignature v1 v2 r = VerifyOutcome.next := by
  have h1 : (r.signature == "") = false := by simpa using hs
  have h2 : (r.chainId == "") = false := by simp [hc]
  have h3 : (r.userWallet == "") = false := by simpa using hw
  have c1 : (jsToLower "sonicBlazeTestnet" == "solana") = false := by decide
  have c2 : (("sonicBlazeTestnet" : String) == "xion-testnet-1") = false := by
    decide
  have c3 : (("sonicBlazeTestnet" : String) == "sonicBlazeTestnet") = true := by
    decide
  unfold verifySignature
  rw [h1, h2, h3, hc, c1, c2, c3]
  simp

lemma sortsBefore_irrefl (side : Side) (a : Order) :
    sortsBefore side a a = false := by
  cases side <;> simp [sortsBefore]

lemma sortsBefore_trans (side : Side) {a b c : Order}
    (h1 : sortsBefore side a b = true) (h2 : sortsBefore side b c = true) :
    sortsBefore side a c = true := by
  cases side <;>
  · simp only [sortsBefore, Bool.or_eq_true, decide_eq_true_eq,
      Bool.and_eq_true, beq_iff_eq] at h1 h2 ⊢
    rcases h1 with h1 | ⟨h1e, h1t⟩ <;> rcases h2 with h2 | ⟨h2e, h2t⟩
    · exact Or.inl (by linarith)
    · exact Or.inl (by rw [← h2e]; exact h1)
    · exact Or.inl (by rw [h1e]; exact h2)
    · exact Or.inr ⟨by rw [h1e, h2e], by omega⟩

lemma sortsBefore_neg_trans (side : Side) {a b c : Order}
    (h1 : sortsBefore side a b = false) (h2 : sortsBefore side b c = false) :
    sortsBefore side a c = false := by
  cases side <;>
  · simp only [sortsBefore, Bool.or_eq_false_iff, Bool.and_eq_false_iff,
      decide_eq_false_iff_not, not_lt, beq_eq_false_iff_ne, ne_eq] at h1 h2 ⊢
    obtain ⟨h1p, h1t⟩ := h1
    obtain ⟨h2p, h2t⟩ := h2
    refine ⟨by linarith, ?_⟩
    by_cases hpe : a.price = c.price
    · have hab : a.price = b.price := by linarith
      have hbc : b.price = c.price := by linarith
      rcases h1t with h | h1t'
      · exact absurd hab h
      rcases h2t with h | h2t'
      · exact absurd hbc h
      right
      omega
    · exact Or.inl hpe

/-- C6 support: the fold implementing `findOne(...).sort(...)` returns a
record that no candidate sorts strictly before. -/
lemma foldl_pickBest_notWorse (side : Side) :
    ∀ (l : List Order) (acc : Option Order) (m : Order),
      l.foldl (pickBest side) acc = some m →
      (∀ b, acc = some b → sortsBefore side b m = false) ∧
      (∀ o ∈ l, sortsBefore side o m = false) := by
  intro l
  induction l with
  | nil =>
      intro acc m h
      refine ⟨?_, by simp⟩
      intro b hb
      rw [hb] at h
      injection h with h2
      subst h2
      exact sortsBefore_irrefl side _
  | cons a rest ih =>
      intro acc m h
      obtain ⟨ihacc, ihrest⟩ := ih (pickBest side acc a) m h
      have hacc : ∀ b, acc = some b → sortsBefore side b m = false := by
        intro b hb
        subst hb
        by_cases hab : sortsBefore side a b = true
        · have ham := ihacc a (by simp [pickBest, hab])
          cases hbm : sortsBefore side b m with
          | false => rfl
          | true =>
              exfalso
              have := sortsBefore_trans side hab hbm
              rw [ham] at this
              cases this
        · exact ihacc b (by simp [pickBest, hab])
      refine ⟨hacc, ?_⟩
      intro o ho
      rcases List.mem_cons.mp ho with ho | ho
      · subst ho
        cases acc with
        | none => exact ihacc o (by simp [pickBest])
        | some b =>
            by_cases hab : sortsBefore side o b = true
            · exact ihacc o (by simp [pickBest, hab])
            · have hbm := ihacc b (by simp [pickBest, hab])
              exact sortsBefore_neg_trans side
                (by simpa using hab) hbm
      · exact ihrest o ho

lemma findBestOpposing_best {taker m : Order} {orders : List Order}
    (h : findBestOpposing taker orders = some m) :
    ∀ o ∈ orders, isCandidate taker o = true →
      sortsBefore taker.side o m = false := by
  unfold findBestOpposing at h
  intro o ho hc
  exact (foldl_pickBest_notWorse taker.side _ none m h).2 o
    (List.mem_filter.mpr ⟨ho, hc⟩)

lemma isCandidate_props {taker o : Order} (h : isCandidate taker o = true) :
    o.marketId = taker.marketId ∧ o.side = oppositeSide taker.side ∧
    o.tokenType = taker.tokenType ∧
    (o.status = OrderStatus.OPEN ∨ o.status = OrderStatus.PARTIAL) ∧
    (taker.side = Side.BUY → o.price ≤ taker.price) ∧
    (taker.side = Side.SELL → taker.price ≤ o.price) := by
  unfold isCandidate at h
  simp only [Bool.and_eq_true, beq_iff_eq, Bool.or_eq_true,
    decide_eq_true_eq] at h
  obtain ⟨⟨⟨⟨⟨h1, h2⟩, h3⟩, h4⟩, h5⟩, _⟩ := h
  refine ⟨h1, h2, h3, h4, ?_, ?_⟩ <;> intro hs <;> rw [hs] at h5 <;>
    simpa using h5

lemma sortsBefore_false_BUY {o m : Order}
    (h : sortsBefore Side.BUY o m = false) :
    m.price ≤ o.price ∧ (m.price = o.price → m.createdAt ≤ o.createdAt) := by
  simp only [sortsBefore, Bool.or_eq_false_iff, Bool.and_eq_false_iff,
    decide_eq_false_iff_not, not_lt, beq_eq_false_iff_ne, ne_eq] at h
  obtain ⟨hp, ht⟩ := h
  refine ⟨hp, fun he => ?_⟩
  rcases ht with ht | ht
  · exact absurd he.symm ht
  · exact ht

lemma sortsBefore_false_SELL {o m : Order}
    (h : sortsBefore Side.SELL o m = false) :
    o.price ≤ m.price ∧ (m.price = o.price → m.createdAt ≤ o.createdAt) := by
  simp only [sortsBefore, Bool.or_eq_false_iff, Bool.and_eq_false_iff,
    decide_eq_false_iff_not, not_lt, beq_eq_false_iff_ne, ne_eq] at h
  obtain ⟨hp, ht⟩ := h
  refine ⟨hp, fun he => ?_⟩
  rcases ht with ht | ht
  · exact absurd he.symm ht
  · exact ht

/-! ## The claims -/

/-- C1 (counterexample): after a committed operation (the admission of a short
SELL of one YES token from an initial store), the market's
`Σ yesTokens + Σ lockedYesTokens` does NOT equal `Σ lockedCollateralYes`:
collateral is locked at admission before any token is minted. -/
theorem C1_collateral_equality_fails :
    admitOrder dbC1 reqC1 = Except.ok (dbC1', oC1) ∧
    Reachable dbC1' ∧
    yesSupply dbC1' "m1" ≠ collYesSupply dbC1' "m1" := by
  refine ⟨by decide, reachable_dbC1', by decide⟩

/-- C1 (amended): after every committed operation (order admission, each fill
applied by the trade executor, settlement), for every market the sum over all
users of `yesTokens + lockedYesTokens` equals the sum over all users of
`noTokens + lockedNoTokens` — every minted YES is paired with a minted NO.
The claimed equality with `Σ lockedCollateralYes` does not hold (collateral
is locked at admission before minting, and the NO tokens minted by YES shorts
are backed by YES-side collateral), so supply pairing is what remains. -/
theorem C1_minted_supply_pairs (db : DB) (h : Reachable db) (mId : String) :
    yesSupply db mId = noSupply db mId := by
  have h2 := (reachable_inv h).2 mId
  unfold dbDiff at h2
  linarith

/-- C1 witness: the amended invariant evaluated on the concrete reachable
store `dbC1'`. -/
theorem C1_minted_supply_pairs_witness :
    Reachable dbC1' ∧ yesSupply dbC1' "m1" = noSupply dbC1' "m1" :=
  ⟨reachable_dbC1', C1_minted_supply_pairs dbC1' reachable_dbC1' "m1"⟩

/-- C2 (code bug): the specification requires admission to reject orders on a
settled market with `MarketClosed`, but the route handler never loads the
Market document: an order against the settled market of `dbC2` is admitted
and created with status OPEN. -/
theorem C2_settled_market_order_admitted :
    dbC2.markets = [{ marketId := "m1", settled := true,
                      outcome := some TokenType.YES }] ∧
    admitOk (admitOrder dbC2 reqC2) = true ∧
    admittedStatus (admitOrder dbC2 reqC2) = some OrderStatus.OPEN := by
  refine ⟨rfl, by decide, by decide⟩

/-- C7 (code bug): when the trade executor aborts a fill on insufficient
locked collateral, the specification says both orders' statuses stay intact
and the loop terminates; in the code the orders were already updated and
saved before the executor ran, the trade record persists, and the loop
continues.  On `dbC7` the failed fill leaves the resting order FILLED with
`filledQuantity = 2`, the taker FILLED, one Trade record, and no balance
change. -/
theorem C7_failed_fill_orders_still_updated :
    (matchOrders 3 dbC7 buyC7).1.users = dbC7.users ∧
    ((matchOrders 3 dbC7 buyC7).1.orders.find?
        (fun o => o.orderId == "s1")).map
      (fun o => (o.status, o.filledQuantity))
      = some (OrderStatus.FILLED, 2) ∧
    (matchOrders 3 dbC7 buyC7).2.1.status = OrderStatus.FILLED ∧
    (matchOrders 3 dbC7 buyC7).2.1.filledQuantity = 2 ∧
    (matchOrders 3 dbC7 buyC7).1.trades.length = 1 := by
  refine ⟨by decide, by decide, by decide, by decide, by decide⟩

/-- C9 (counterexample): a positive fractional quantity (1/2) passes the
`quantity <= 0` check and the order is admitted — the claim that any
non-integer quantity is rejected with InvalidQuantity is false. -/
theorem C9_fractional_quantity_admitted :
    reqC9.quantity = 1/2 ∧ reqC9.quantity.isInt = false ∧
    admitOk (admitOrder dbC1 reqC9) = true := by
  refine ⟨by decide, by decide, by decide⟩

/-- C9 (amended): admission admits price exactly 0 or 1 (never rejecting them
as InvalidPrice), rejects price < 0 or price > 1 with InvalidPrice, and
rejects any quantity ≤ 0 with InvalidQuantity — in each case before any asset
is locked and with no order created; positive fractional quantities are NOT
rejected. -/
theorem C9_price_quantity_validation (db : DB) (req : OrderReq) :
    (req.price < 0 ∨ 1 < req.price →
      admitOrder db req = Except.error OrderError.invalidPrice) ∧
    (0 ≤ req.price → req.price ≤ 1 → req.quantity ≤ 0 →
      admitOrder db req = Except.error OrderError.invalidQuantity) ∧
    ((req.price = 0 ∨ req.price = 1) →
      admitOrder db req ≠ Except.error OrderError.invalidPrice) := by
  refine ⟨?_, ?_, ?_⟩
  · intro hp
    unfold admitOrder
    rw [if_pos hp]
  · intro hp0 hp1 hq
    unfold admitOrder
    rw [if_neg (by push_neg; exact ⟨hp0, hp1⟩), if_pos hq]
  · intro hp hcontra
    have hnp : ¬(req.price < 0 ∨ 1 < req.price) := by
      rcases hp with hp | hp <;> rw [hp] <;> push_neg <;> norm_num
    unfold admitOrder at hcontra
    rw [if_neg hnp] at hcontra
    split at hcontra
    · simp at hcontra
    · split at hcontra
      · simp at hcontra
      · split at hcontra
        · rename_i e helock
          simp only [Except.error.injEq] at hcontra
          have := lockAssets_error helock
          rw [hcontra] at this
          exact absurd this (by simp)
        · simp at hcontra

/-- C9 witness: the three validation outcomes at concrete inputs: price 2 is
rejected InvalidPrice, quantity 0 is rejected InvalidQuantity, and price 0 is
not rejected as InvalidPrice. -/
theorem C9_price_quantity_validation_witness :
    admitOrder dbC1 { reqC9 with price := 2 }
      = Except.error OrderError.invalidPrice ∧
    admitOrder dbC1 { reqC9 with quantity := 0 }
      = Except.error OrderError.invalidQuantity ∧
    admitOrder dbC1 { reqC9 with price := 0 }
      ≠ Except.error OrderError.invalidPrice :=
  ⟨(C9_price_quantity_validation dbC1 _).1 (Or.inr (by decide)),
   (C9_price_quantity_validation dbC1 _).2.1 (by decide) (by decide)
     (by decide),
   (C9_price_quantity_validation dbC1 _).2.2 (Or.inl (by decide))⟩

/-- C10: for requests whose chainId is exactly "sonicBlazeTestnet" carrying
the three required fields, the signature middleware passes the request on
without any cryptographic check: two requests differing only in the signature
blob both reach the handler, whatever the crypto oracles say. -/
theorem C10_sonic_chain_signature_bypass (v1 v2 : VerifyReq → Bool)
    (r : VerifyReq) (s2 : String) (hc : r.chainId = "sonicBlazeTestnet")
    (hs : r.signature ≠ "") (hw : r.userWallet ≠ "") (hs2 : s2 ≠ "") :
    verifySignature v1 v2 r = VerifyOutcome.next ∧
    verifySignature v1 v2 { r with signature := s2 } = VerifyOutcome.next :=
  ⟨verify_sonic v1 v2 r hc hs hw,
   verify_sonic v1 v2 _ hc (by simpa using hs2) hw⟩

/-- C10 witness: the bypass evaluated on a concrete request, a different
signature blob, and crypto oracles that reject everything. -/
theorem C10_sonic_chain_signature_bypass_witness :
    rC10.chainId = "sonicBlazeTestnet" ∧ rC10.signature ≠ "" ∧
    verifySignature (fun _ => false) (fun _ => false) rC10
      = VerifyOutcome.next ∧
    verifySignature (fun _ => false) (fun _ => false)
      { rC10 with signature := "other-sig" } = VerifyOutcome.next := by
  have h := C10_sonic_chain_signature_bypass (fun _ => false) (fun _ => false)
    rC10 "other-sig" rfl (by decide) (by decide) (by decide)
  exact ⟨rfl, by decide, h.1, h.2⟩

/-- C6: in every iteration of the matching loop that processes a fill, the
chosen opposing order is an OPEN-or-PARTIAL order of the same market and
token type on the opposite side, price-compatible with the taker's limit,
minimal by price (maximal for a SELL taker) and earliest by creation time
among equal prices; the resulting trade executes at the resting maker's price
with quantity `min(remaining, maker available)`. -/
theorem C6_price_time_priority (db : DB) (taker : Order) (remaining : ℚ)
    (db' : DB) (taker' : Order) (remaining' : ℚ) (fill : Fill)
    (h : matchIter db taker remaining = IterOut.next db' taker' remaining' fill) :
    ∃ m, findBestOpposing taker db.orders = some m ∧
      m ∈ db.orders ∧
      m.marketId = taker.marketId ∧
      m.side = oppositeSide taker.side ∧
      m.tokenType = taker.tokenType ∧
      (m.status = OrderStatus.OPEN ∨ m.status = OrderStatus.PARTIAL) ∧
      (taker.side = Side.BUY → m.price ≤ taker.price ∧
        ∀ o ∈ db.orders, isCandidate taker o = true →
          m.price ≤ o.price ∧ (m.price = o.price → m.createdAt ≤ o.createdAt)) ∧
      (taker.side = Side.SELL → taker.price ≤ m.price ∧
        ∀ o ∈ db.orders, isCandidate taker o = true →
          o.price ≤ m.price ∧ (m.price = o.price → m.createdAt ≤ o.createdAt)) ∧
      fill.price = m.price ∧
      fill.quantity = min remaining (m.quantity - m.filledQuantity) ∧
      db'.trades = db.trades ++ [mkTrade db taker m remaining] := by
  unfold matchIter at h
  cases hfb : findBestOpposing taker db.orders with
  | none => rw [hfb] at h; simp at h
  | some m =>
      obtain ⟨hmem, hcand⟩ := findBestOpposing_mem hfb
      obtain ⟨hp1, hp2, hp3, hp4, hp5, hp6⟩ := isCandidate_props hcand
      have hbest := findBestOpposing_best hfb
      refine ⟨m, rfl, hmem, hp1, hp2, hp3, hp4, ?_, ?_, ?_⟩
      · intro hs
        refine ⟨hp5 hs, fun o ho hoc => ?_⟩
        have := hbest o ho hoc
        rw [hs] at this
        exact sortsBefore_false_BUY this
      · intro hs
        refine ⟨hp6 hs, fun o ho hoc => ?_⟩
        have := hbest o ho hoc
        rw [hs] at this
        exact sortsBefore_false_SELL this
      · rw [hfb] at h
        simp only at h
        by_cases hav : m.quantity - m.filledQuantity ≤ 0
        · rw [if_pos hav] at h; simp at h
        · rw [if_neg hav] at h
          split at h
          · rename_i buyerBal sellerBal hbb hsb
            cases hex : executeTrade buyerBal sellerBal taker.marketId
                taker.tokenType m.price
                (min remaining (m.quantity - m.filledQuantity))
                (if (taker.side == Side.BUY) = true then taker.price
                 else m.price) with
            | none =>
                rw [hex] at h
                simp only [IterOut.next.injEq] at h
                obtain ⟨h1, h2, h3, h4⟩ := h
                subst h1 h2 h3 h4
                exact ⟨rfl, rfl, rfl⟩
            | some bs =>
                obtain ⟨bb', sb'⟩ := bs
                rw [hex] at h
                simp only [IterOut.next.injEq] at h
                obtain ⟨h1, h2, h3, h4⟩ := h
                subst h1 h2 h3 h4
                exact ⟨rfl, rfl, rfl⟩
          · simp_all

/-- C6 witness: the price-time-priority property evaluated on the concrete
iteration `matchIter dbC7 buyC7 2`. -/
theorem C6_price_time_priority_witness :
    matchIter dbC7 buyC7 2 = IterOut.next dbC6' takerC6' 0 fillC6 ∧
    (∃ m, findBestOpposing buyC7 dbC7.orders = some m ∧
      m ∈ dbC7.orders ∧
      m.marketId = buyC7.marketId ∧
      m.side = oppositeSide buyC7.side ∧
      m.tokenType = buyC7.tokenType ∧
      (m.status = OrderStatus.OPEN ∨ m.status = OrderStatus.PARTIAL) ∧
      (buyC7.side = Side.BUY → m.price ≤ buyC7.price ∧
        ∀ o ∈ dbC7.orders, isCandidate buyC7 o = true →
          m.price ≤ o.price ∧ (m.price = o.price → m.createdAt ≤ o.createdAt)) ∧
      (buyC7.side = Side.SELL → buyC7.price ≤ m.price ∧
        ∀ o ∈ dbC7.orders, isCandidate buyC7 o = true →
          o.price ≤ m.price ∧ (m.price = o.price → m.createdAt ≤ o.createdAt)) ∧
      fillC6.price = m.price ∧
      fillC6.quantity = min 2 (m.quantity - m.filledQuantity) ∧
      dbC6'.trades = dbC7.trades ++ [mkTrade dbC7 buyC7 m 2]) :=
  ⟨by decide,
   C6_price_time_priority dbC7 buyC7 2 dbC6' takerC6' 0 fillC6 (by decide)⟩

/-- C8: no self-match.  (a) The opposing order selected by the candidate
query never belongs to the taker's own user; (b) every fill the matching
pass hands to the trade executor pairs two distinct user ids; (c) a taker
all of whose price-compatible opposite-side open orders belong to the
taker's own user produces no fills: the loop finds no candidate, the book
and trade log gain nothing, and the order rests OPEN. -/
theorem C8_no_self_match (fuel : ℕ) (db : DB) (taker : Order) :
    (∀ m, findBestOpposing taker db.orders = some m →
      m.userId ≠ taker.userId) ∧
    (∀ f ∈ (matchOrders fuel db taker).2.2, f.buyerId ≠ f.sellerId) ∧
    ((∀ o ∈ db.orders,
        (o.marketId == taker.marketId &&
         o.side == oppositeSide taker.side &&
         o.tokenType == taker.tokenType &&
         (o.status == OrderStatus.OPEN || o.status == OrderStatus.PARTIAL) &&
         (match taker.side with
          | Side.BUY => decide (o.price ≤ taker.price)
          | Side.SELL => decide (taker.price ≤ o.price))) = true →
        o.userId = taker.userId) →
      taker.status = OrderStatus.OPEN → taker.filledQuantity = 0 →
      0 < taker.quantity →
      matchOrders fuel db taker = (saveOrder db taker, taker, [])) := by
  refine ⟨?_, ?_, ?_⟩
  · intro m hfb
    exact isCandidate_userId (findBestOpposing_mem hfb).2
  · intro f hf
    rw [matchOrders_fills] at hf
    exact matchLoop_fills_ne fuel db taker
      (taker.quantity - taker.filledQuantity) [] (by intro g hg; cases hg) f hf
  · intro hall hstat hfq hpos
    have hfilter : db.orders.filter (isCandidate taker) = [] := by
      rw [List.filter_eq_nil_iff]
      intro o ho hcand
      unfold isCandidate at hcand
      rw [Bool.and_eq_true] at hcand
      have heq := hall o ho hcand.1
      have hne := hcand.2
      simp [heq] at hne
    exact matchOrders_noCandidate fuel db taker
      (findBestOpposing_none hfilter) hstat hfq hpos

/-- C8 witness: with `takerC8`, whose only price-compatible opposite-side
order `oC8` is their own, matching leaves the book and trade log unchanged
and rests the order. -/
theorem C8_no_self_match_witness :
    matchOrders 3 dbC8 takerC8 = (saveOrder dbC8 takerC8, takerC8, []) :=
  (C8_no_self_match 3 dbC8 takerC8).2.2 (by decide) (by decide) (by decide)
    (by decide)

/-- C3: per-fill accounting of the trade executor.  On a successful
`executeTrade` the seller is paid `price * quantity`; the buyer's
`availableUSD` is only ever credited — by exactly
`(buyerLimitPrice - price) * quantity` when the limit improves on the
execution price and by nothing otherwise; for a YES fill the buyer gains
`quantity` YES tokens, `min(quantity, lockedYesTokens)` is taken from the
seller's locked inventory, the shortfall is minted as the seller's NO
tokens (possible only when `lockedCollateralYes` covers it), and no
collateral field of either party is decremented (the whole remaining
records are unchanged); symmetrically for NO. -/
theorem C3_trade_executor_accounting (b s : UserBalance) (mId : String)
    (tt : TokenType) (p q blp : ℚ) (b' s' : UserBalance)
    (hq : 0 < q)
    (hLY : 0 ≤ (entryFor s mId).lockedYesTokens)
    (hLN : 0 ≤ (entryFor s mId).lockedNoTokens)
    (h : executeTrade b s mId tt p q blp = some (b', s')) :
    s'.availableUSD = s.availableUSD + p * q ∧
    b'.availableUSD = b.availableUSD +
      (if p < blp then (blp - p) * q else 0) ∧
    b.availableUSD ≤ b'.availableUSD ∧
    (tt = TokenType.YES →
      entryFor b' mId = { entryFor b mId with
        yesTokens := (entryFor b mId).yesTokens + q } ∧
      entryFor s' mId = { entryFor s mId with
        lockedYesTokens := (entryFor s mId).lockedYesTokens -
          min q (entryFor s mId).lockedYesTokens,
        noTokens := (entryFor s mId).noTokens +
          (q - min q (entryFor s mId).lockedYesTokens) } ∧
      (0 < q - min q (entryFor s mId).lockedYesTokens →
        q - min q (entryFor s mId).lockedYesTokens ≤
          (entryFor s mId).lockedCollateralYes)) ∧
    (tt = TokenType.NO →
      entryFor b' mId = { entryFor b mId with
        noTokens := (entryFor b mId).noTokens + q } ∧
      entryFor s' mId = { entryFor s mId with
        lockedNoTokens := (entryFor s mId).lockedNoTokens -
          min q (entryFor s mId).lockedNoTokens,
        yesTokens := (entryFor s mId).yesTokens +
          (q - min q (entryFor s mId).lockedNoTokens) } ∧
      (0 < q - min q (entryFor s mId).lockedNoTokens →
        q - min q (entryFor s mId).lockedNoTokens ≤
          (entryFor s mId).lockedCollateralNo)) := by
  have hbE : findMB (ensureMB b mId) mId = some (entryFor b mId) :=
    findMB_ensureMB b mId
  have hsE : findMB { ensureMB s mId with availableUSD :=
      (ensureMB s mId).availableUSD + p * q } mId = some (entryFor s mId) :=
    findMB_ensureMB s mId
  cases tt with
  | YES =>
      simp only [executeTrade] at h
      split at h
      · simp at h
      · rename_i bb sb heq
        simp only [Option.some.injEq, Prod.mk.injEq] at h
        obtain ⟨hb', hs'⟩ := h
        subst hb' hs'
        obtain ⟨hbu, hsu, hbe, hse, hcov⟩ :=
          deliverYES_spec hbE hsE hq hLY heq
        have hbu' : bb.availableUSD = b.availableUSD := by
          rw [hbu, ensureMB_usd]
        have hsu' : sb.availableUSD = s.availableUSD + p * q := by
          rw [hsu]
          show (ensureMB s mId).availableUSD + p * q = _
          rw [ensureMB_usd]
        have hre : entryFor (if 0 < (if 0 < blp - p then (blp - p) * q else 0)
            then { bb with availableUSD := bb.availableUSD +
              (if 0 < blp - p then (blp - p) * q else 0) } else bb) mId =
            entryFor bb mId := by
          generalize (if 0 < blp - p then (blp - p) * q else 0) = r
          split <;> rfl
        have husd : (if 0 < (if 0 < blp - p then (blp - p) * q else 0)
            then { bb with availableUSD := bb.availableUSD +
              (if 0 < blp - p then (blp - p) * q else 0) }
              else bb).availableUSD =
            b.availableUSD + (if p < blp then (blp - p) * q else 0) := by
          by_cases hpd : 0 < blp - p
          · rw [if_pos hpd, if_pos (mul_pos hpd hq),
              if_pos (by linarith : p < blp)]
            show bb.availableUSD + (blp - p) * q = _
            rw [hbu']
          · rw [if_neg hpd, if_neg (lt_irrefl 0),
              if_neg (by intro hx; exact hpd (by linarith))]
            rw [hbu']
            ring
        refine ⟨hsu', husd, ?_, ?_, ?_⟩
        · rw [husd]
          by_cases hpb : p < blp
          · rw [if_pos hpb]
            have : 0 ≤ (blp - p) * q :=
              le_of_lt (mul_pos (by linarith) hq)
            linarith
          · rw [if_neg hpb]
            linarith
        · intro _
          refine ⟨?_, hse, hcov⟩
          rw [hre]
          exact hbe
        · intro hx
          exact absurd hx (by simp)
  | NO =>
      simp only [executeTrade] at h
      split at h
      · simp at h
      · rename_i bb sb heq
        simp only [Option.some.injEq, Prod.mk.injEq] at h
        obtain ⟨hb', hs'⟩ := h
        subst hb' hs'
        obtain ⟨hbu, hsu, hbe, hse, hcov⟩ :=
          deliverNO_spec hbE hsE hq hLN heq
        have hbu' : bb.availableUSD = b.availableUSD := by
          rw [hbu, ensureMB_usd]
        have hsu' : sb.availableUSD = s.availableUSD + p * q := by
          rw [hsu]
          show (ensureMB s mId).availableUSD + p * q = _
          rw [ensureMB_usd]
        have hre : entryFor (if 0 < (if 0 < blp - p then (blp - p) * q else 0)
            then { bb with availableUSD := bb.availableUSD +
              (if 0 < blp - p then (blp - p) * q else 0) } else bb) mId =
            entryFor bb mId := by
          generalize (if 0 < blp - p then (blp - p) * q else 0) = r
          split <;> rfl
        have husd : (if 0 < (if 0 < blp - p then (blp - p) * q else 0)
            then { bb with availableUSD := bb.availableUSD +
              (if 0 < blp - p then (blp - p) * q else 0) }
              else bb).availableUSD =
            b.availableUSD + (if p < blp then (blp - p) * q else 0) := by
          by_cases hpd : 0 < blp - p
          · rw [if_pos hpd, if_pos (mul_pos hpd hq),
              if_pos (by linarith : p < blp)]
            show bb.availableUSD + (blp - p) * q = _
            rw [hbu']
          · rw [if_neg hpd, if_neg (lt_irrefl 0),
              if_neg (by intro hx; exact hpd (by linarith))]
            rw [hbu']
            ring
        refine ⟨hsu', husd, ?_, ?_, ?_⟩
        · rw [husd]
          by_cases hpb : p < blp
          · rw [if_pos hpb]
            have : 0 ≤ (blp - p) * q :=
              le_of_lt (mul_pos (by linarith) hq)
            linarith
          · rw [if_neg hpb]
            linarith
        · intro hx
          exact absurd hx (by simp)
        · intro _
          refine ⟨?_, hse, hcov⟩
          rw [hre]
          exact hbe

/-- C3 witness: the executor run `executeTrade bC3 sC3 "m1" YES (1/2) 3 (2/3)`
(1 locked YES token of inventory, a 2-unit short against 2 units of
collateral, price improvement 1/6). -/
theorem C3_trade_executor_accounting_witness :
    s'C3.availableUSD = sC3.availableUSD + (1/2) * 3 ∧
    b'C3.availableUSD = bC3.availableUSD +
      (if (1:ℚ)/2 < 2/3 then (2/3 - 1/2) * 3 else 0) ∧
    bC3.availableUSD ≤ b'C3.availableUSD ∧
    entryFor b'C3 "m1" = { entryFor bC3 "m1" with
      yesTokens := (entryFor bC3 "m1").yesTokens + 3 } ∧
    entryFor s'C3 "m1" = { entryFor sC3 "m1" with
      lockedYesTokens := (entryFor sC3 "m1").lockedYesTokens -
        min 3 (entryFor sC3 "m1").lockedYesTokens,
      noTokens := (entryFor sC3 "m1").noTokens +
        (3 - min 3 (entryFor sC3 "m1").lockedYesTokens) } :=
  have T := C3_trade_executor_accounting bC3 sC3 "m1" TokenType.YES
    (1/2) 3 (2/3) b'C3 s'C3 (by decide) (by decide) (by decide) (by decide)
  ⟨T.1, T.2.1, T.2.2.1, (T.2.2.2.1 rfl).1, (T.2.2.2.1 rfl).2.1⟩

/-- C4: admission asset locking.  A BUY locks exactly `price * quantity` of
`availableUSD` and fails `InsufficientFunds` when the funds are short; a
SELL of YES moves `min(quantity, yesTokens)` from `yesTokens` to
`lockedYesTokens` and, for the shortfall `max(quantity - yesTokens, 0)`,
moves that amount from `availableUSD` into `lockedCollateralYes`, failing
`InsufficientFunds` when `availableUSD` cannot cover the shortfall
(symmetrically for NO); and any locking failure propagates to an admission
error, on which no order is created and nothing is persisted. -/
theorem C4_admission_asset_locking (db : DB) (req : OrderReq)
    (ub : UserBalance) :
    (req.side = Side.BUY →
      (ub.availableUSD < req.price * req.quantity →
        lockAssets ub req = Except.error OrderError.insufficientFunds) ∧
      (req.price * req.quantity ≤ ub.availableUSD →
        lockAssets ub req = Except.ok { ub with
          availableUSD := ub.availableUSD - req.price * req.quantity })) ∧
    (∀ m, req.side = Side.SELL → req.tokenType = TokenType.YES →
      findMB ub req.marketId = some m → 0 ≤ m.yesTokens →
      ((m.yesTokens < req.quantity →
        ub.availableUSD < req.quantity - m.yesTokens →
        lockAssets ub req = Except.error OrderError.insufficientFunds) ∧
       (req.quantity ≤ m.yesTokens ∨
          req.quantity - m.yesTokens ≤ ub.availableUSD →
        ∃ ub', lockAssets ub req = Except.ok ub' ∧
          ub'.userId = ub.userId ∧
          ub'.availableUSD =
            ub.availableUSD - max (req.quantity - m.yesTokens) 0 ∧
          entryFor ub' req.marketId =
            { m with
              yesTokens := m.yesTokens - min req.quantity m.yesTokens,
              lockedYesTokens :=
                m.lockedYesTokens + min req.quantity m.yesTokens,
              lockedCollateralYes := m.lockedCollateralYes +
                max (req.quantity - m.yesTokens) 0 }))) ∧
    (∀ m, req.side = Side.SELL → req.tokenType = TokenType.NO →
      findMB ub req.marketId = some m → 0 ≤ m.noTokens →
      ((m.noTokens < req.quantity →
        ub.availableUSD < req.quantity - m.noTokens →
        lockAssets ub req = Except.error OrderError.insufficientFunds) ∧
       (req.quantity ≤ m.noTokens ∨
          req.quantity - m.noTokens ≤ ub.availableUSD →
        ∃ ub', lockAssets ub req = Except.ok ub' ∧
          ub'.userId = ub.userId ∧
          ub'.availableUSD =
            ub.availableUSD - max (req.quantity - m.noTokens) 0 ∧
          entryFor ub' req.marketId =
            { m with
              noTokens := m.noTokens - min req.quantity m.noTokens,
              lockedNoTokens :=
                m.lockedNoTokens + min req.quantity m.noTokens,
              lockedCollateralNo := m.lockedCollateralNo +
                max (req.quantity - m.noTokens) 0 }))) ∧
    (∀ e ub0, getUser db (jsToLower req.userId) = some ub0 →
      ¬(req.price < 0 ∨ 1 < req.price) → ¬req.quantity ≤ 0 →
      lockAssets (ensureMB ub0 req.marketId) req = Except.error e →
      admitOrder db req = Except.error e) := by
  refine ⟨?_, ?_, ?_, ?_⟩
  · intro hside
    constructor
    · intro hlt
      rw [lockAssets.eq_def, hside]
      dsimp only
      rw [if_pos hlt]
    · intro hle
      rw [lockAssets.eq_def, hside]
      dsimp only
      rw [if_neg (not_lt.mpr hle)]
  · intro m hside htt hm h0
    exact ⟨fun hlt husd => lockAssets_sellYES_err hside htt hm hlt husd,
           fun hok => lockAssets_sellYES_ok hside htt hm h0 hok⟩
  · intro m hside htt hm h0
    exact ⟨fun hlt husd => lockAssets_sellNO_err hside htt hm hlt husd,
           fun hok => lockAssets_sellNO_ok hside htt hm h0 hok⟩
  · intro e ub0 hu hp hq hl
    exact admitOrder_lockError hu hp hq hl

/-- C4 witness: `ubC4` holds 1 USD and 1 YES token; the SELL YES request
`reqC4` for 4 units needs 3 units of collateral, so locking fails
`InsufficientFunds` and the whole admission fails with no order created. -/
theorem C4_admission_asset_locking_witness :
    lockAssets ubC4 reqC4 = Except.error OrderError.insufficientFunds ∧
    admitOrder dbC4 reqC4 = Except.error OrderError.insufficientFunds :=
  have T := C4_admission_asset_locking dbC4 reqC4 ubC4
  ⟨(T.2.1 mC4 rfl rfl (by decide) (by decide)).1 (by decide) (by decide),
   T.2.2.2 OrderError.insufficientFunds ubC4 (by decide) (by decide)
     (by decide) (by decide)⟩

/-- C5: settlement.  When `settleMarket` succeeds, every order of the
market goes through the cancellation map (OPEN/PARTIAL orders with
positive unfilled quantity become CANCELLED, all others are untouched);
every user goes through `settleUser` with their BUY-refund
(`Σ unfilled * price` over their open BUY orders); any participant with a
position record is credited refund plus payout — for outcome YES the
post-release `yesTokens` plus `lockedCollateralNo`, with
`lockedCollateralYes` forfeited, symmetrically for NO — and their six
per-market fields end at zero; users without a record are untouched; and
the market document ends with `settled = true` and the outcome set. -/
theorem C5_settlement (db : DB) (mId : String) (oc : TokenType) (db' : DB)
    (h : settleMarket db mId oc = some db') :
    db'.orders = db.orders.map (cancelOrder mId) ∧
    (∀ o, (isOpenOrder mId o &&
        decide (0 < o.quantity - o.filledQuantity)) = true →
      cancelOrder mId o = { o with status := OrderStatus.CANCELLED }) ∧
    (∀ o, (isOpenOrder mId o &&
        decide (0 < o.quantity - o.filledQuantity)) = false →
      cancelOrder mId o = o) ∧
    db'.users = db.users.map (fun ub =>
      settleUser mId oc (refundOf db mId ub.userId) ub) ∧
    (∀ ub m r, findMB ub mId = some m →
      0 ≤ m.lockedYesTokens → 0 ≤ m.lockedNoTokens →
      (settleUser mId oc r ub).availableUSD =
        ub.availableUSD + r +
          (match oc with
           | TokenType.YES =>
               m.yesTokens + m.lockedYesTokens + m.lockedCollateralNo
           | TokenType.NO =>
               m.noTokens + m.lockedNoTokens + m.lockedCollateralYes) ∧
      entryFor (settleUser mId oc r ub) mId =
        { m with yesTokens := 0, noTokens := 0, lockedYesTokens := 0,
                 lockedNoTokens := 0, lockedCollateralYes := 0,
                 lockedCollateralNo := 0 }) ∧
    (∀ ub r, findMB ub mId = none → settleUser mId oc r ub = ub) ∧
    (∀ mkt ∈ db'.markets, mkt.marketId = mId →
      mkt.settled = true ∧ mkt.outcome = some oc) := by
  unfold settleMarket at h
  split at h
  · simp at h
  · rename_i mkt hfind
    split at h
    · simp at h
    · simp only [Option.some.injEq] at h
      subst h
      refine ⟨rfl, ?_, ?_, rfl, ?_, ?_, ?_⟩
      · intro o hc
        unfold cancelOrder
        rw [if_pos hc]
      · intro o hc
        unfold cancelOrder
        rw [if_neg (by rw [hc]; exact Bool.false_ne_true)]
      · intro ub m r hm hy hn
        have hsf := settleUser_found oc r hm hy hn
        cases oc with
        | YES => exact hsf
        | NO => exact hsf
      · intro ub r hm
        exact settleUser_noentry hm
      · intro mkt' hmem hid
        rcases List.mem_map.mp hmem with ⟨mk0, hmk0, hfm⟩
        by_cases hmm : (mk0.marketId == mId) = true
        · rw [if_pos hmm] at hfm
          rw [← hfm]
          exact ⟨rfl, rfl⟩
        · rw [if_neg hmm] at hfm
          subst hfm
          exact absurd (by simp [hid]) hmm

/-- C5 witness: settling `dbC5` on YES cancels the open BUY order, pays the
holder of `mC5` refund 1 plus payout 1 + 2 + 3 (the 4 units of YES
collateral are forfeited), zeroes the position and flags the market. -/
theorem C5_settlement_witness :
    settleMarket dbC5 "m1" TokenType.YES = some db5' ∧
    (settleUser "m1" TokenType.YES 1 ubC5).availableUSD =
      ubC5.availableUSD + 1 + (mC5.yesTokens + mC5.lockedYesTokens +
        mC5.lockedCollateralNo) ∧
    entryFor (settleUser "m1" TokenType.YES 1 ubC5) "m1" =
      { mC5 with yesTokens := 0, noTokens := 0, lockedYesTokens := 0,
                 lockedNoTokens := 0, lockedCollateralYes := 0,
                 lockedCollateralNo := 0 } :=
  have T := C5_settlement dbC5 "m1" TokenType.YES db5' (by decide)
  ⟨by decide,
   (T.2.2.2.2.1 ubC5 mC5 1 (by decide) (by decide) (by decide)).1,
   (T.2.2.2.2.1 ubC5 mC5 1 (by decide) (by decide) (by decide)).2⟩

end Robet